import Mathlib

/-!
Verification of the cdd_comm digital-diary serial protocol implementation
(source files `cdd_comm/frame.py`, `cdd_comm/record.py`, `cdd_comm/decoder.py`,
`cdd_comm/sender.py`): a shallow embedding of the frame codec, the frame
taxonomy, the record layer, the decoder's record aggregator and the sender
session, with theorems about checksums, serialization, frame recognition,
text fragmentation and record round trips.

Machine integers are modelled as `Nat` with explicit `% 256` (resp. `% 65536`)
where Python masks with `& 0xFF` (resp. `& 0xFFFF`).  Python exceptions are
modelled with `Except String`.  Python strings are modelled as `List Char`.
-/

namespace CDD

/-- Python strings, modelled as lists of characters. -/
abbrev PyStr := List Char

/-- Model of the enum `frame.Colors` (BLUE = 0x1, ORANGE = 0x2, GREEN = 0x4). -/
inductive Colors
  | blue
  | orange
  | green
deriving DecidableEq, Repr

/-- Numeric value of each `Colors` member. -/
def Colors.val : Colors → Nat
  | .blue => 0x1
  | .orange => 0x2
  | .green => 0x4

/-- Model of the enum `frame.Priorities` (A = 0x10, B = 0x20, C = 0x30). -/
inductive Priorities
  | A
  | B
  | C
deriving DecidableEq, Repr

/-- Numeric value of each `Priorities` member. -/
def Priorities.val : Priorities → Nat
  | .A => 0x10
  | .B => 0x20
  | .C => 0x30

/-- The concrete Python class of a frame object.  `generic` is the base class
`frame.Frame` itself (the fallback of `Frame.from_data`); the other
constructors are the concrete subclasses registered in `Frame.SUBCLASSES`.
The abstract class `TextDataFrame` is never instantiated and its `match` is
constant `False`, so it has no constructor here. -/
inductive FrameKind
  | generic
  | directory
  | telephoneDirectory
  | businessCardDirectory
  | memoDirectory
  | calendarDirectory
  | scheduleDirectory
  | reminderDirectory
  | toDoDirectory
  | expenseManagerDirectory
  | color
  | date
  | deadlineDate
  | time
  | deadlineTime
  | toDoAlarm
  | alarm
  | priority
  | dayHighlight
  | dayColorHighlight
  | startEndTime
  | illustration
  | text
  | endOfRecord
  | endOfTransmission
deriving DecidableEq, Repr

/-- Model of the dataclass `frame.Frame`: the five dataclass fields plus the
runtime class of the object (`kind`), which Python keeps as `type(self)` and
which `Frame.__eq__` compares. -/
structure Frame where
  kind : FrameKind
  length : Nat
  frame_type : Nat
  address : Nat
  data : List Nat
  checksum : Nat
deriving DecidableEq, Repr

/-- Model of `Frame.calculate_checksum`: sum length, type, both address bytes
and the data, mask to 8 bits, subtract from 0xFF, add one, mask again. -/
def calculate_checksum (length frame_type address : Nat) (data : List Nat) : Nat :=
  let checksum := length + frame_type + ((address / 256) % 256) + (address % 256) + data.sum
  let checksum := checksum % 256
  let checksum := 255 - checksum
  let checksum := checksum + 1
  checksum % 256

/-- Model of `Frame.is_checksum_valid`. -/
def Frame.is_checksum_valid (f : Frame) : Bool :=
  f.checksum == calculate_checksum f.length f.frame_type f.address f.data

/-- Model of `Frame.__eq__`: `False` when the runtime classes differ, else
compare the five dataclass fields. -/
def Frame.pyEq (self other : Frame) : Bool :=
  if self.kind == other.kind then
    self.length == other.length && self.frame_type == other.frame_type
      && self.address == other.address && self.data == other.data
      && self.checksum == other.checksum
  else
    false

/-- Upper-case ASCII hex digit (as a code point) of a nibble `n < 16`. -/
def hexDigit (n : Nat) : Nat := if n < 10 then 48 + n else 55 + n

/-- Model of `Frame._encode`: the two ASCII codes of `"%02X" % value`.
The Python code asserts `0 ≤ value ≤ 255`; this model is it restricted to
that range (all uses stay within it). -/
def encodeHex (value : Nat) : List Nat := [hexDigit (value / 16), hexDigit (value % 16)]

/-- Model of `Frame.bytes`: `:` (0x3A), then hex pairs for length, type,
address low byte, address high byte, each data byte and the checksum. -/
def Frame.bytes (f : Frame) : List Nat :=
  [0x3A] ++ encodeHex f.length ++ encodeHex f.frame_type
    ++ encodeHex (f.address % 256) ++ encodeHex ((f.address / 256) % 256)
    ++ (f.data.map encodeHex).flatten ++ encodeHex f.checksum

/-- The recognition predicate (`match` classmethod) of each concrete frame
class, as a function of `(length, frame_type, address, data)`.  The base
class `Frame.match` is constant `False`.  The directory subclasses inherit
`Directory.match`, each with its own `DATA` constant; `Color.match` and
`Priority.match` additionally test `data[0]` (modelled with `head?`; Python
would raise `IndexError` on empty data, which no caller produces since
`from_data` is fed `length` data bytes). -/
def matchKind : FrameKind → Nat → Nat → Nat → List Nat → Bool
  | .generic, _, _, _, _ => false
  | .directory, l, t, a, d => l == 2 && t == 0 && a == 0x200 && d == [0, 0]
  | .telephoneDirectory, l, t, a, d => l == 2 && t == 0 && a == 0x200 && d == [0x90, 0]
  | .businessCardDirectory, l, t, a, d => l == 2 && t == 0 && a == 0x200 && d == [0xC0, 0]
  | .memoDirectory, l, t, a, d => l == 2 && t == 0 && a == 0x200 && d == [0xA0, 0]
  | .calendarDirectory, l, t, a, d => l == 2 && t == 0 && a == 0x200 && d == [0x80, 0]
  | .scheduleDirectory, l, t, a, d => l == 2 && t == 0 && a == 0x200 && d == [0xB0, 0]
  | .reminderDirectory, l, t, a, d => l == 2 && t == 0 && a == 0x200 && d == [0x91, 0]
  | .toDoDirectory, l, t, a, d => l == 2 && t == 0 && a == 0x200 && d == [0xC1, 0]
  | .expenseManagerDirectory, l, t, a, d => l == 2 && t == 0 && a == 0x200 && d == [0x92, 0]
  | .color, l, t, a, d =>
      l == 1 && t == 0x71 && a == 0
        && (match d.head? with
            | some x => x == 0x1 || x == 0x2 || x == 0x4
            | none => false)
  | .date, l, t, a, _ => l == 10 && t == 0xF0 && a == 0
  | .deadlineDate, l, t, a, _ => l == 10 && t == 0xF4 && a == 0
  | .time, l, t, a, _ => l == 5 && t == 0xE0 && a == 0
  | .deadlineTime, l, t, a, _ => l == 5 && t == 0xE4 && a == 0
  | .toDoAlarm, l, t, a, _ => l == 5 && t == 0xC4 && a == 0
  | .alarm, l, t, a, _ => l == 5 && t == 0xC0 && a == 0
  | .priority, l, t, a, d =>
      l == 1 && t == 0x72 && a == 0
        && (match d.head? with
            | some x => x == 0x10 || x == 0x20 || x == 0x30
            | none => false)
  | .dayHighlight, l, t, a, _ => l == 4 && t == 0xD0 && a == 0
  | .dayColorHighlight, l, t, a, _ => l == 0x20 && t == 0x78 && a == 0
  | .startEndTime, l, t, a, _ => l == 0xB && t == 0xE0 && a == 0
  | .illustration, l, t, a, _ => l == 1 && t == 0x21 && a == 0
  | .text, _, t, _, _ => t == 0x80 || t == 0x81
  | .endOfRecord, l, t, a, _ => l == 0 && t == 0 && a == 0x100
  | .endOfTransmission, l, t, a, _ => l == 0 && t == 0 && a == 0xFF00

/-- `Frame.SUBCLASSES` in reverse registration order, exactly as iterated by
`Frame.from_data` (`for subclass in reversed(cls.SUBCLASSES)`).  Registration
order is class definition order in `frame.py`.  The abstract `TextDataFrame`
sits between `Date` and `Color` in this order; its `match` is constant
`False`, so it is omitted. -/
def subclassesReversed : List FrameKind :=
  [.endOfTransmission, .endOfRecord, .text, .illustration, .startEndTime,
   .dayColorHighlight, .dayHighlight, .priority, .alarm, .toDoAlarm,
   .deadlineTime, .time, .deadlineDate, .date, .color,
   .expenseManagerDirectory, .toDoDirectory, .reminderDirectory,
   .scheduleDirectory, .calendarDirectory, .memoDirectory,
   .businessCardDirectory, .telephoneDirectory, .directory]

/-- Model of `Frame.from_data`: the first subclass (scanning
`reversed(SUBCLASSES)`) whose `match` accepts the tuple wins; otherwise the
generic base class `Frame` is instantiated. -/
def from_data (length frame_type address : Nat) (data : List Nat) (checksum : Nat) : Frame :=
  match subclassesReversed.find? (fun k => matchKind k length frame_type address data) with
  | some k => ⟨k, length, frame_type, address, data, checksum⟩
  | none => ⟨.generic, length, frame_type, address, data, checksum⟩

/-- The specialized directory subclasses (the `Directory` subclasses). -/
def specializedDirectories : List FrameKind :=
  [.telephoneDirectory, .businessCardDirectory, .memoDirectory,
   .calendarDirectory, .scheduleDirectory, .reminderDirectory,
   .toDoDirectory, .expenseManagerDirectory]

/-- Membership in the Directory class family (`isinstance(f, Directory)`):
the generic directory and its eight subclasses. -/
def FrameKind.isDirectoryFamily : FrameKind → Bool
  | .directory | .telephoneDirectory | .businessCardDirectory | .memoDirectory
  | .calendarDirectory | .scheduleDirectory | .reminderDirectory
  | .toDoDirectory | .expenseManagerDirectory => true
  | _ => false

/-- Model of the state of `frame.FrameBuilder`: each header field is `None`
until its byte arrives. -/
structure FrameBuilder where
  length : Option Nat
  frame_type : Option Nat
  addressLow : Option Nat
  addressHigh : Option Nat
  address : Option Nat
  dataCount : Option Nat
  data : List Nat
  checksum : Option Nat
deriving Repr, DecidableEq

/-- The state produced by `FrameBuilder.__init__`. -/
def FrameBuilder.empty : FrameBuilder := ⟨none, none, none, none, none, none, [], none⟩

/-- Model of `FrameBuilder.add_data`: consume one already-decoded byte; the
fields fill in the order Length, Type, Address Low, Address High, then
`length` Data bytes (`if self._data_count:` is falsy for 0), then Checksum,
at which point `Frame.from_data` builds the recognized frame.  Returns the
new state, the tag of the consumed field, and the emitted frame if any.
(`self.address` is always set when the checksum byte arrives in this flow;
the Python `ValueError` guard for a missing address is unreachable and the
model reads the address with a default.) -/
def FrameBuilder.add_data (fb : FrameBuilder) (d : Nat) : FrameBuilder × String × Option Frame :=
  match fb.length with
  | none => ({ fb with length := some d, dataCount := some d }, "Length", none)
  | some l =>
    match fb.frame_type with
    | none => ({ fb with frame_type := some d }, "Type", none)
    | some t =>
      match fb.addressLow with
      | none => ({ fb with addressLow := some d }, "Address Low", none)
      | some lo =>
        match fb.addressHigh with
        | none =>
            ({ fb with addressHigh := some d, address := some ((d <<< 8) ||| (lo % 256)) },
              "Address High", none)
        | some _ =>
            if fb.dataCount.getD 0 ≠ 0 then
              ({ fb with data := fb.data ++ [d], dataCount := some (fb.dataCount.getD 0 - 1) },
                "Data", none)
            else
              ({ fb with checksum := some d }, "Checksum",
                some (from_data l t (fb.address.getD 0) fb.data d))

/-- Feed a list of bytes one at a time into a builder, returning what the
final byte's `add_data` call emitted. -/
def FrameBuilder.run (fb : FrameBuilder) : List Nat → Option Frame
  | [] => none
  | [b] => (fb.add_data b).2.2
  | b :: rest => ((fb.add_data b).1).run rest

/-- Numeric value of one upper-case ASCII hex digit code (inverse of
`hexDigit`; this is the hex decoding the decoder performs on serialized
frames before feeding `FrameBuilder`). -/
def decodeHexDigit (c : Nat) : Nat := if c < 58 then c - 48 else c - 55

/-- Decode consecutive pairs of ASCII hex digit codes into bytes. -/
def decodeHexPairs : List Nat → List Nat
  | hi :: lo :: rest => (16 * decodeHexDigit hi + decodeHexDigit lo) :: decodeHexPairs rest
  | _ => []

theorem decodeHexPairs_encodeHex (v : Nat) (hv : v < 256) (rest : List Nat) :
    decodeHexPairs (encodeHex v ++ rest) = v :: decodeHexPairs rest := by
  have h16 : ∀ n, n < 16 → decodeHexDigit (hexDigit n) = n := by decide
  have h1 : v / 16 < 16 := by omega
  have h2 : v % 16 < 16 := by omega
  simp only [encodeHex, List.cons_append, List.nil_append, decodeHexPairs]
  rw [h16 _ h1, h16 _ h2, show 16 * (v / 16) + v % 16 = v by omega]
  rfl

theorem decodeHexPairs_flatten (ds : List Nat) (hd : ∀ x ∈ ds, x < 256) (rest : List Nat) :
    decodeHexPairs ((ds.map encodeHex).flatten ++ rest) = ds ++ decodeHexPairs rest := by
  induction ds with
  | nil => simp
  | cons x xs ih =>
      have hx : x < 256 := hd x (by simp)
      simp only [List.map_cons, List.flatten_cons, List.append_assoc, List.cons_append,
        decodeHexPairs_encodeHex x hx, ih (fun y hy => hd y (by simp [hy]))]

theorem two_mul_lor (m b : Nat) : (2 * m) ||| b = 2 * (m ||| (b / 2)) + b % 2 := by
  apply Nat.eq_of_testBit_eq
  intro i
  cases i with
  | zero =>
      simp only [Nat.testBit_zero, Nat.testBit_or]
      have hl : 2 * m % 2 = 0 := by omega
      have hr : (2 * (m ||| b / 2) + b % 2) % 2 = b % 2 := by omega
      simp [hl, hr]
  | succ i =>
      rw [Nat.testBit_succ, Nat.testBit_succ, Nat.or_div_two]
      have hl : 2 * m / 2 = m := by omega
      have hr : (2 * (m ||| b / 2) + b % 2) / 2 = m ||| b / 2 := by omega
      rw [hl, hr]

theorem shiftLeft_lor_eq (w : Nat) : ∀ a b : Nat, b < 2 ^ w → (a <<< w) ||| b = a * 2 ^ w + b := by
  induction w with
  | zero =>
      intro a b hb
      have hb0 : b = 0 := by omega
      simp [hb0, Nat.shiftLeft_zero]
  | succ w ih =>
      intro a b hb
      have hstep : a <<< (w + 1) = 2 * (a <<< w) := by
        rw [Nat.shiftLeft_succ]
      have hb2 : b / 2 < 2 ^ w := by
        have := Nat.pow_succ 2 w
        omega
      rw [hstep, two_mul_lor, ih a (b / 2) hb2, Nat.pow_succ]
      have hmul : a * (2 ^ w * 2) = 2 * (a * 2 ^ w) := by ring
      rw [hmul]
      omega

theorem FrameBuilder.run_cons (fb : FrameBuilder) (b : Nat) (rest : List Nat) (h : rest ≠ []) :
    fb.run (b :: rest) = ((fb.add_data b).1).run rest := by
  cases rest with
  | nil => exact absurd rfl h
  | cons x xs => rfl

theorem FrameBuilder.run_data_phase (ds : List Nat) :
    ∀ (c l t lo hi a cnt : Nat) (acc : List Nat), cnt = ds.length →
      FrameBuilder.run ⟨some l, some t, some lo, some hi, some a, some cnt, acc, none⟩
          (ds ++ [c])
        = some (from_data l t a (acc ++ ds) c) := by
  induction ds with
  | nil =>
      intro c l t lo hi a cnt acc hcnt
      subst hcnt
      simp [FrameBuilder.run, FrameBuilder.add_data]
  | cons d ds ih =>
      intro c l t lo hi a cnt acc hcnt
      rw [List.cons_append, FrameBuilder.run_cons _ _ _ (by simp)]
      have hstate : (FrameBuilder.add_data
          ⟨some l, some t, some lo, some hi, some a, some cnt, acc, none⟩ d).1
          = ⟨some l, some t, some lo, some hi, some a, some (cnt - 1), acc ++ [d], none⟩ := by
        simp only [List.length_cons] at hcnt
        simp [FrameBuilder.add_data, hcnt]
      rw [hstate, ih c l t lo hi a (cnt - 1) (acc ++ [d]) (by simp at hcnt; omega),
        List.append_assoc]
      rfl

theorem FrameBuilder.run_full (l t lo hi c : Nat) (ds : List Nat) (hlen : ds.length = l) :
    FrameBuilder.empty.run ([l, t, lo, hi] ++ ds ++ [c])
      = some (from_data l t ((hi <<< 8) ||| (lo % 256)) ds c) := by
  have hne : ds ++ [c] ≠ [] := by simp
  have hsplit : [l, t, lo, hi] ++ ds ++ [c] = l :: t :: lo :: hi :: (ds ++ [c]) := by simp
  rw [hsplit, FrameBuilder.run_cons _ _ _ (by simp),
    FrameBuilder.run_cons _ _ _ (by simp),
    FrameBuilder.run_cons _ _ _ (by simp),
    FrameBuilder.run_cons _ _ _ hne]
  have h1 : ((FrameBuilder.empty.add_data l).1 = ⟨some l, none, none, none, none, some l, [], none⟩) := by
    simp [FrameBuilder.empty, FrameBuilder.add_data]
  rw [h1]
  have h2 : ((FrameBuilder.add_data ⟨some l, none, none, none, none, some l, [], none⟩ t).1
      = ⟨some l, some t, none, none, none, some l, [], none⟩) := by
    simp [FrameBuilder.add_data]
  rw [h2]
  have h3 : ((FrameBuilder.add_data ⟨some l, some t, none, none, none, some l, [], none⟩ lo).1
      = ⟨some l, some t, some lo, none, none, some l, [], none⟩) := by
    simp [FrameBuilder.add_data]
  rw [h3]
  have h4 : ((FrameBuilder.add_data ⟨some l, some t, some lo, none, none, some l, [], none⟩ hi).1
      = ⟨some l, some t, some lo, some hi, some ((hi <<< 8) ||| (lo % 256)), some l, [], none⟩) := by
    simp [FrameBuilder.add_data]
  rw [h4, FrameBuilder.run_data_phase ds c l t lo hi _ l [] hlen.symm]
  rfl

/-- C2: for every frame with length, type, checksum in byte range, a 16-bit
address and exactly `length` data bytes, stripping the leading `:` from
`Frame.bytes` and decoding the upper-case hex pairs back to bytes, then
feeding those bytes one at a time into a fresh `FrameBuilder`, yields on the
final (checksum) byte a frame with the same length, type, address, data and
checksum and of the recognized frame kind (`Frame.from_data` of the tuple). -/
theorem frame_builder_roundtrip (f : Frame)
    (hl : f.length < 256) (ht : f.frame_type < 256) (ha : f.address < 65536)
    (hc : f.checksum < 256) (hd : ∀ x ∈ f.data, x < 256)
    (hlen : f.data.length = f.length) :
    FrameBuilder.empty.run (decodeHexPairs f.bytes.tail)
      = some (from_data f.length f.frame_type f.address f.data f.checksum) := by
  obtain ⟨k, l, t, a, d, c⟩ := f
  simp only at hl ht ha hc hd hlen
  have htail : (Frame.bytes ⟨k, l, t, a, d, c⟩).tail
      = encodeHex l ++ (encodeHex t ++ (encodeHex (a % 256)
        ++ (encodeHex ((a / 256) % 256) ++ ((d.map encodeHex).flatten
        ++ (encodeHex c ++ []))))) := by
    simp [Frame.bytes]
  rw [htail, decodeHexPairs_encodeHex l hl, decodeHexPairs_encodeHex t ht,
    decodeHexPairs_encodeHex (a % 256) (by omega),
    decodeHexPairs_encodeHex ((a / 256) % 256) (by omega),
    decodeHexPairs_flatten d hd, decodeHexPairs_encodeHex c hc]
  have hform : (l :: t :: a % 256 :: (a / 256) % 256 :: (d ++ c :: decodeHexPairs []))
      = [l, t, a % 256, (a / 256) % 256] ++ d ++ [c] := by
    simp [decodeHexPairs]
  rw [hform, FrameBuilder.run_full l t (a % 256) ((a / 256) % 256) c d hlen]
  have haddr : ((((a / 256) % 256) <<< 8) ||| (a % 256 % 256)) = a := by
    rw [shiftLeft_lor_eq 8 ((a / 256) % 256) (a % 256 % 256) (by omega)]
    have hq : (a / 256) % 256 = a / 256 := Nat.mod_eq_of_lt (by omega)
    rw [hq]
    omega
  rw [haddr]

/-- Witness for C2: the round trip applied to the S1 frame
(length=3, type=0xF4, address=0x86, data=[0,1,2], checksum=0x80). -/
theorem frame_builder_roundtrip_witness :
    FrameBuilder.empty.run (decodeHexPairs ((from_data 3 0xF4 0x86 [0, 1, 2] 0x80).bytes.tail))
      = some (from_data 3 0xF4 0x86 [0, 1, 2] 0x80) :=
  frame_builder_roundtrip (from_data 3 0xF4 0x86 [0, 1, 2] 0x80)
    (by decide) (by decide) (by decide) (by decide) (by decide) (by decide)

/-- Model of `TextDataFrame.CASIO_TO_UNICODE`: the device character table as
an association list in source order.  The snapshot of the source stores the
non-ASCII glyphs as the literal placeholder strings "??" and "???", which
this model reproduces verbatim; values may be several characters long. -/
def CASIO_TO_UNICODE : List (Nat × List Char) :=
  [(10, ['\x1F']),
   (13, ['\n']),
   (21, ['?', '?']),
   (32, [' ']),
   (33, ['!']),
   (34, ['"']),
   (35, ['#']),
   (36, ['$']),
   (37, ['%']),
   (38, ['&']),
   (39, ['\'']),
   (40, ['(']),
   (41, [')']),
   (42, ['*']),
   (43, ['+']),
   (44, [',']),
   (45, ['-']),
   (46, ['.']),
   (47, ['/']),
   (48, ['0']),
   (49, ['1']),
   (50, ['2']),
   (51, ['3']),
   (52, ['4']),
   (53, ['5']),
   (54, ['6']),
   (55, ['7']),
   (56, ['8']),
   (57, ['9']),
   (58, [':']),
   (59, [';']),
   (60, ['<']),
   (61, ['=']),
   (62, ['>']),
   (63, ['?']),
   (64, ['@']),
   (65, ['A']),
   (66, ['B']),
   (67, ['C']),
   (68, ['D']),
   (69, ['E']),
   (70, ['F']),
   (71, ['G']),
   (72, ['H']),
   (73, ['I']),
   (74, ['J']),
   (75, ['K']),
   (76, ['L']),
   (77, ['M']),
   (78, ['N']),
   (79, ['O']),
   (80, ['P']),
   (81, ['Q']),
   (82, ['R']),
   (83, ['S']),
   (84, ['T']),
   (85, ['U']),
   (86, ['V']),
   (87, ['W']),
   (88, ['X']),
   (89, ['Y']),
   (90, ['Z']),
   (91, ['[']),
   (92, ['\\']),
   (93, [']']),
   (94, ['^']),
   (97, ['a']),
   (98, ['b']),
   (99, ['c']),
   (100, ['d']),
   (101, ['e']),
   (102, ['f']),
   (103, ['g']),
   (104, ['h']),
   (105, ['i']),
   (106, ['j']),
   (107, ['k']),
   (108, ['l']),
   (109, ['m']),
   (110, ['n']),
   (111, ['o']),
   (112, ['p']),
   (113, ['q']),
   (114, ['r']),
   (115, ['s']),
   (116, ['t']),
   (117, ['u']),
   (118, ['v']),
   (119, ['w']),
   (120, ['x']),
   (121, ['y']),
   (122, ['z']),
   (123, ['{']),
   (124, ['?', '?']),
   (125, ['}']),
   (126, ['~']),
   (181, ['?', '?']),
   (144, ['?', '?']),
   (182, ['?', '?']),
   (183, ['?', '?']),
   (184, ['?', '?']),
   (185, ['?', '?']),
   (186, ['?', '?']),
   (187, ['?', '?']),
   (188, ['?', '?']),
   (189, ['?', '?']),
   (198, ['?', '?']),
   (199, ['?', '?']),
   (200, ['?', '?']),
   (201, ['?', '?']),
   (202, ['?', '?']),
   (173, ['?', '?']),
   (160, ['?', '?']),
   (130, ['?', '?']),
   (161, ['?', '?']),
   (162, ['?', '?']),
   (163, ['?', '?']),
   (133, ['?', '?']),
   (138, ['?', '?']),
   (141, ['?', '?']),
   (149, ['?', '?']),
   (151, ['?', '?']),
   (131, ['?', '?']),
   (136, ['?', '?']),
   (140, ['?', '?']),
   (147, ['?', '?']),
   (150, ['?', '?']),
   (168, ['?', '?']),
   (142, ['?', '?']),
   (203, ['?', '?']),
   (204, ['?', '?']),
   (153, ['?', '?']),
   (154, ['?', '?']),
   (205, ['?', '?']),
   (207, ['?', '?']),
   (165, ['?', '?']),
   (209, ['?', '?']),
   (146, ['?', '?']),
   (128, ['?', '?']),
   (143, ['?', '?']),
   (232, ['?', '?']),
   (225, ['?', '?']),
   (190, ['?', '?']),
   (155, ['?', '?']),
   (132, ['?', '?']),
   (137, ['?', '?']),
   (139, ['?', '?']),
   (148, ['?', '?']),
   (129, ['?', '?']),
   (206, ['?', '?']),
   (208, ['?', '?']),
   (164, ['?', '?']),
   (210, ['?', '?']),
   (145, ['?', '?']),
   (135, ['?', '?']),
   (134, ['?', '?']),
   (237, ['?', '?']),
   (156, ['?', '?']),
   (157, ['?', '?']),
   (234, ['?', '?']),
   (166, ['?', '?']),
   (167, ['?', '?']),
   (245, ['?', '?']),
   (246, ['?', '?']),
   (241, ['?', '?']),
   (248, ['?', '?']),
   (253, ['?', '?']),
   (211, ['?', '?']),
   (230, ['?', '?']),
   (171, ['?', '?']),
   (172, ['?', '?']),
   (212, ['?', '?']),
   (159, ['?', '?']),
   (179, ['|']),
   (216, ['?', '?', '?']),
   (174, ['?', '?', '?']),
   (175, ['?', '?', '?']),
   (251, ['?', '?', '?'])]

/-- Dict lookup `CASIO_TO_UNICODE[d]` (keys are unique; `none` models the
Python `KeyError`). -/
def casioToUnicode (d : Nat) : Option (List Char) :=
  (CASIO_TO_UNICODE.find? (fun p => p.1 == d)).map (fun p => p.2)

/-- Model of `TextDataFrame.UNICODE_TO_CASIO`, the dict comprehension
inverting `CASIO_TO_UNICODE` (skipping empty strings): on duplicate string
values the last insertion wins, hence the lookup scans the reversed list. -/
def unicodeToCasio (s : List Char) : Option Nat :=
  (CASIO_TO_UNICODE.reverse.find? (fun p => !p.2.isEmpty && p.2 == s)).map (fun p => p.1)

/-- Encoding of one character (`UNICODE_TO_CASIO[c]` for a 1-character
string, the only lookups the encoder performs). -/
def encodeChar (c : Char) : Option Nat := unicodeToCasio [c]

/-- A character the device table can encode. -/
def encodable (c : Char) : Bool := (encodeChar c).isSome

/-- Model of the `TextDataFrame.text` property: decode every data byte
through `CASIO_TO_UNICODE` and concatenate; an unmapped byte raises
`KeyError`. -/
def decodeText : List Nat → Except String (List Char)
  | [] => .ok []
  | d :: rest =>
      match casioToUnicode d with
      | some s => (decodeText rest).map (fun r => s ++ r)
      | none => .error "KeyError"

/-- Character-by-character encoding of a chunk, as the loop in
`Text._from_text` performs it (`ValueError` on a character outside the
table). -/
def encodeText : List Char → Except String (List Nat)
  | [] => .ok []
  | c :: rest =>
      match encodeChar c with
      | some n => (encodeText rest).map (fun ns => n :: ns)
      | none => .error "Invalid character"

theorem find?_key_of_mem {α : Type} (l : List (Nat × α)) (hnodup : (l.map Prod.fst).Nodup)
    (p : Nat × α) (hmem : p ∈ l) :
    l.find? (fun q => q.1 == p.1) = some p := by
  induction l with
  | nil => simp at hmem
  | cons a l ih =>
      rw [List.map_cons, List.nodup_cons] at hnodup
      rcases List.mem_cons.mp hmem with rfl | hm
      · simp [List.find?]
      · have hkey : (a.1 == p.1) = false := by
          simp only [beq_eq_false_iff_ne, ne_eq]
          intro h
          exact hnodup.1 (h ▸ List.mem_map_of_mem Prod.fst hm)
        simp only [List.find?, hkey]
        exact ih hnodup.2 hm

set_option maxRecDepth 8000 in
theorem casio_keys_nodup : (CASIO_TO_UNICODE.map Prod.fst).Nodup := by decide

/-- Decoding inverts encoding: a character the table encodes decodes back to
itself (the dict comprehension keeps, for each string value, the code of its
last occurrence, whose table entry is exactly that string). -/
theorem casioToUnicode_encodeChar (c : Char) (n : Nat) (h : encodeChar c = some n) :
    casioToUnicode n = some [c] := by
  unfold encodeChar unicodeToCasio at h
  cases hq : CASIO_TO_UNICODE.reverse.find? (fun p => !p.2.isEmpty && p.2 == [c]) with
  | none => rw [hq] at h; simp at h
  | some q =>
      rw [hq] at h
      have hpred := List.find?_some hq
      have hmem : q ∈ CASIO_TO_UNICODE := List.mem_reverse.mp (List.mem_of_find?_eq_some hq)
      simp only [Bool.and_eq_true, beq_iff_eq] at hpred
      unfold casioToUnicode
      have hn : q.1 = n := by
        simpa using h
      rw [← hn, find?_key_of_mem CASIO_TO_UNICODE casio_keys_nodup q hmem]
      simp [hpred.2]

theorem decodeText_append (a b : List Nat) (x y : List Char)
    (ha : decodeText a = .ok x) (hb : decodeText b = .ok y) :
    decodeText (a ++ b) = .ok (x ++ y) := by
  induction a generalizing x with
  | nil =>
      simp only [decodeText] at ha
      cases ha
      simpa using hb
  | cons d rest ih =>
      rw [List.cons_append]
      simp only [decodeText] at ha ⊢
      cases hc : casioToUnicode d with
      | none => rw [hc] at ha; cases ha
      | some s =>
          rw [hc] at ha
          cases hr : decodeText rest with
          | error e => rw [hr] at ha; cases ha
          | ok r =>
              rw [hr] at ha
              simp only [Except.map] at ha
              cases ha
              rw [ih r hr]
              simp [Except.map, List.append_assoc]

theorem encodeText_roundtrip (s : List Char) (h : ∀ c ∈ s, encodable c) :
    ∃ ns, encodeText s = .ok ns ∧ decodeText ns = .ok s := by
  induction s with
  | nil => exact ⟨[], rfl, rfl⟩
  | cons c rest ih =>
      obtain ⟨ns, he, hd⟩ := ih (fun x hx => h x (List.mem_cons_of_mem c hx))
      have hc : encodable c := h c (List.mem_cons_self c rest)
      unfold encodable at hc
      obtain ⟨n, hn⟩ := Option.isSome_iff_exists.mp hc
      refine ⟨n :: ns, ?_, ?_⟩
      · simp only [encodeText, hn, he, Except.map]
      · simp only [decodeText, casioToUnicode_encodeChar c n hn, hd, Except.map]
        rfl

/-- Python regex whitespace in the ASCII range (the device table contains no
other whitespace characters, and newlines are split off before wrapping). -/
def pyIsSpace (c : Char) : Bool :=
  c == ' ' || c == '\t' || c == '\n' || c == '\r' || c == '\x0B' || c == '\x0C'

/-- Split a line into maximal runs of whitespace and of non-whitespace
characters: the chunks produced by the simple word separator regex `(\\s+)`
used by `textwrap` when `break_on_hyphens` is false, with empty pieces
dropped. -/
def splitRuns : List Char → List (List Char)
  | [] => []
  | c :: rest =>
      match splitRuns rest with
      | [] => [[c]]
      | [] :: runs => [c] :: runs
      | (d :: run) :: runs =>
          if pyIsSpace c == pyIsSpace d then (c :: d :: run) :: runs
          else [c] :: (d :: run) :: runs

theorem splitRuns_flatten (s : List Char) : (splitRuns s).flatten = s := by
  induction s with
  | nil => rfl
  | cons c rest ih =>
      simp only [splitRuns]
      cases hs : splitRuns rest with
      | nil => rw [hs] at ih; simpa using ih.symm
      | cons run runs =>
          rw [hs] at ih
          cases run with
          | nil => simpa using ih
          | cons d run =>
              by_cases hsp : pyIsSpace c == pyIsSpace d
              · simp only [hsp, if_true, List.flatten_cons] at ih ⊢
                simpa using ih
              · simp only [hsp, if_false, List.flatten_cons] at ih ⊢
                simpa using ih

theorem splitRuns_eq_nil_iff (s : List Char) : splitRuns s = [] ↔ s = [] := by
  cases s with
  | nil => simp [splitRuns]
  | cons c rest =>
      simp only [splitRuns]
      constructor
      · intro h
        cases hs : splitRuns rest with
        | nil => rw [hs] at h; cases h
        | cons run runs =>
            rw [hs] at h
            cases run with
            | nil => cases h
            | cons d run =>
                by_cases hsp : pyIsSpace c == pyIsSpace d <;> simp [hsp] at h
      · intro h
        cases h

/-- The inner packing loop of `textwrap._wrap_chunks`: greedily take whole
chunks while they fit in `width` columns given `cur` columns already used;
return the taken chunks and the rest. -/
def takeFit (width : Nat) : Nat → List (List Char) → List (List Char) × List (List Char)
  | _, [] => ([], [])
  | cur, ch :: rest =>
      if cur + ch.length ≤ width then
        let r := takeFit width (cur + ch.length) rest
        (ch :: r.1, r.2)
      else ([], ch :: rest)

theorem takeFit_all (width : Nat) (chunks : List (List Char)) :
    ∀ cur, cur + (chunks.map List.length).sum ≤ width →
      takeFit width cur chunks = (chunks, []) := by
  induction chunks with
  | nil => intro cur _; rfl
  | cons ch rest ih =>
      intro cur hle
      simp only [List.map_cons, List.sum_cons] at hle
      have hfit : cur + ch.length ≤ width := by omega
      simp only [takeFit, hfit, if_true]
      rw [ih (cur + ch.length) (by omega)]

/-- The outer loop of `textwrap._wrap_chunks` for the option set used by
`Text._from_text` (`expand_tabs=False`, `replace_whitespace=False`,
`drop_whitespace=False`, `break_on_hyphens=False`, `break_long_words=True`,
no indents, no `max_lines`), consuming chunks from the front of the list
(Python keeps them reversed and pops from the end).  `fuel` bounds the
number of iterations; every caller passes enough, since each iteration
either consumes at least one chunk or shortens the overlong head chunk. -/
def wrapGo (width : Nat) : Nat → List (List Char) → List (List Char)
  | 0, _ => []
  | _ + 1, [] => []
  | fuel + 1, ch0 :: chs0 =>
      let tk := takeFit width 0 (ch0 :: chs0)
      let cur := tk.1
      let curLen := (cur.map List.length).sum
      match tk.2 with
      | [] => if cur.isEmpty then [] else [cur.flatten]
      | ch :: rest =>
          if width < ch.length then
            let spaceLeft := if width < 1 then 1 else width - curLen
            let cur2 := cur ++ [ch.take spaceLeft]
            (if cur2.isEmpty then [] else [cur2.flatten])
              ++ wrapGo width fuel (ch.drop spaceLeft :: rest)
          else
            (if cur.isEmpty then [] else [cur.flatten]) ++ wrapGo width fuel (ch :: rest)

/-- Model of `textwrap.wrap(line, width, ...)` with the options of
`Text._from_text`: split into runs, then pack greedily. -/
def pyWrap (width : Nat) (line : List Char) : List (List Char) :=
  let chunks := splitRuns line
  wrapGo width (line.length + chunks.length + 1) chunks

/-- A line that fits within `width` columns wraps to itself (or to nothing
when empty). -/
theorem pyWrap_short (width : Nat) (line : List Char) (hw : line.length ≤ width) :
    pyWrap width line = if line = [] then [] else [line] := by
  by_cases hnil : line = []
  · subst hnil
    simp [pyWrap, splitRuns, wrapGo]
  · simp only [hnil, if_false]
    unfold pyWrap
    cases hs : splitRuns line with
    | nil => exact absurd ((splitRuns_eq_nil_iff line).mp hs) hnil
    | cons ch0 chs0 =>
        have hsum : ((ch0 :: chs0).map List.length).sum = line.length := by
          have := splitRuns_flatten line
          rw [hs] at this
          rw [← this, List.length_flatten]
        simp only [wrapGo]
        rw [takeFit_all width (ch0 :: chs0) 0 (by omega)]
        simp only []
        have hflat : (ch0 :: chs0).flatten = line := by
          have := splitRuns_flatten line
          rw [hs] at this
          exact this
        simp [hflat]

/-- Model of Python `str.split(sep)` for a one-character separator: always
returns at least one (possibly empty) field. -/
def splitOnChar (sep : Char) : List Char → List (List Char)
  | [] => [[]]
  | c :: rest =>
      let r := splitOnChar sep rest
      if c == sep then [] :: r
      else
        match r with
        | f :: fs => (c :: f) :: fs
        | [] => [[c]]

/-- Join fields with a one-character separator (inverse of `splitOnChar`). -/
def joinSep (sep : Char) : List (List Char) → List Char
  | [] => []
  | [f] => f
  | f :: rest => f ++ sep :: joinSep sep rest

theorem joinSep_cons_cons (sep : Char) (f g : List Char) (fs : List (List Char)) :
    joinSep sep (f :: g :: fs) = f ++ sep :: joinSep sep (g :: fs) := rfl

theorem joinSep_head_cons (sep c : Char) (f : List Char) (fs : List (List Char)) :
    joinSep sep ((c :: f) :: fs) = c :: joinSep sep (f :: fs) := by
  cases fs with
  | nil => rfl
  | cons g gs => rfl

theorem splitOnChar_ne_nil (sep : Char) (s : List Char) : splitOnChar sep s ≠ [] := by
  cases s with
  | nil => simp [splitOnChar]
  | cons c rest =>
      simp only [splitOnChar]
      by_cases h : c == sep
      · simp [h]
      · simp only [h, if_false]
        cases splitOnChar sep rest with
        | nil => simp
        | cons f fs => simp

theorem joinSep_splitOnChar (sep : Char) (s : List Char) :
    joinSep sep (splitOnChar sep s) = s := by
  induction s with
  | nil => rfl
  | cons c rest ih =>
      cases hr : splitOnChar sep rest with
      | nil => exact absurd hr (splitOnChar_ne_nil sep rest)
      | cons f fs =>
          rw [hr] at ih
          by_cases h : c == sep
          · have hc : c = sep := by simpa using h
            simp only [splitOnChar, hr, h, if_true]
            rw [joinSep_cons_cons, ih, hc]
            rfl
          · have hb : (c == sep) = false := by simpa using h
            simp only [splitOnChar, hr, hb, Bool.false_eq_true, if_false]
            rw [joinSep_head_cons, ih]

theorem mem_joinSep (sep : Char) (x : Char) :
    ∀ (parts : List (List Char)) (l : List Char), x ∈ l → l ∈ parts →
      x ∈ joinSep sep parts := by
  intro parts
  induction parts with
  | nil => intro l _ hm; simp at hm
  | cons f fs ih =>
      intro l hx hm
      rcases List.mem_cons.mp hm with rfl | hm2
      · cases fs with
        | nil => simpa using hx
        | cons g gs =>
            rw [joinSep_cons_cons]
            exact List.mem_append_left _ hx
      · cases fs with
        | nil => simp at hm2
        | cons g gs =>
            rw [joinSep_cons_cons]
            refine List.mem_append_right _ ?_
            exact List.mem_cons_of_mem sep (ih l hx hm2)

theorem mem_of_mem_splitOnChar (sep : Char) (s l : List Char) (x : Char)
    (hl : l ∈ splitOnChar sep s) (hx : x ∈ l) : x ∈ s := by
  have := mem_joinSep sep x (splitOnChar sep s) l hx hl
  rwa [joinSep_splitOnChar] at this

/-- The inner loop of `Text._from_text` over the (at most three) chunks of
one line: encode each chunk, append the code of a newline after every chunk
of a non-final line, and build one Text frame per chunk; the running
`address` selects type 0x80 (address < 0x100) or 0x81 (address mod 0x100)
and advances by the frame's data length. -/
def mkTextFrame (address : Nat) (data : List Nat) : Frame :=
  let ftype := if address ≥ 256 then 0x81 else 0x80
  let faddr := if address ≥ 256 then address % 256 else address
  ⟨.text, data.length, ftype, faddr, data, calculate_checksum data.length ftype faddr data⟩

def textFramesOfChunks : List (List Char) → Bool → Nat → Except String (List Frame × Nat)
  | [], _, address => .ok ([], address)
  | chunk :: rest, lastLine, address => do
      let cdata ← encodeText chunk
      let data := if lastLine then cdata else cdata ++ [13]
      let f := mkTextFrame address data
      let pr ← textFramesOfChunks rest lastLine (address + data.length)
      .ok (f :: pr.1, pr.2)

/-- The outer loop of `Text._from_text` over the lines of the text (split on
newline): each line is wrapped to 128 columns, at most three chunks are
kept, and only the final line is flagged as last. -/
def processLines : List (List Char) → Nat → Except String (List Frame × Nat)
  | [], address => .ok ([], address)
  | [line], address => textFramesOfChunks ((pyWrap 128 line).take 3) true address
  | line :: rest, address => do
      let pr1 ← textFramesOfChunks ((pyWrap 128 line).take 3) false address
      let pr2 ← processLines rest pr1.2
      .ok (pr1.1 ++ pr2.1, pr2.2)

/-- Model of `Text._from_text`: append the unit separator unless this is the
last text of the record, enforce `MAX_LENGTH = 376`, split on newline and
emit frames per line and chunk, threading the running address. -/
def fromTextAux (text : List Char) (last : Bool) (address : Nat) :
    Except String (List Frame × Nat) :=
  let text2 := if last then text else text ++ ['\x1F']
  if text2.length > 376 then .error "Text too long"
  else processLines (splitOnChar '\n' text2) address

/-- The loop of `Text.from_text_list` over the texts, flagging the final one
as last and threading the address. -/
def fromTextListGo : List (List Char) → Nat → Except String (List Frame)
  | [], _ => .ok []
  | [tx], address => (fromTextAux tx true address).map (fun pr => pr.1)
  | tx :: rest, address => do
      let pr1 ← fromTextAux tx false address
      let fs2 ← fromTextListGo rest pr1.2
      .ok (pr1.1 ++ fs2)

/-- Model of `Text.from_text_list`: reject a total length over
`MAX_LENGTH = 376`, then emit the frames of each text in order starting at
address 0. -/
def from_text_list (texts : List (List Char)) : Except String (List Frame) :=
  if (texts.map List.length).sum > 376 then .error "Text too long"
  else fromTextListGo texts 0

/-- Model of `Text.from_text`. -/
def from_text (t : List Char) : Except String (List Frame) := from_text_list [t]

/-- The type/address discipline of Text frames, starting from byte offset
`off` in the record's text region: type 0x80 with the literal offset while
the offset is below 0x100, type 0x81 with the offset mod 0x100 afterwards,
consecutive offsets increasing by each frame's data length. -/
def wellAddressed : Nat → List Frame → Prop
  | _, [] => True
  | off, f :: rest =>
      f.frame_type = (if off ≥ 256 then 0x81 else 0x80)
        ∧ f.address = (if off ≥ 256 then off % 256 else off)
        ∧ wellAddressed (off + f.data.length) rest

/-- Concatenated decoded text of a frame list (the record layer's text
accumulation applied to Text frames). -/
def decodeConcat (fs : List Frame) : Except String (List Char) :=
  decodeText ((fs.map Frame.data).flatten)

theorem bind_ok_eq {e a b : Type} (x : a) (f : a → Except e b) :
    (Except.ok x >>= f) = f x := rfl

theorem bind_error_eq {e a b : Type} (x : e) (f : a → Except e b) :
    (Except.error x >>= f) = Except.error x := rfl

theorem pure_eq_ok {e a : Type} (x : a) : (pure x : Except e a) = Except.ok x := rfl

theorem decodeText_newline : decodeText [13] = .ok ['\n'] := rfl

theorem textFramesOfChunks_line (line : List Char) (lastLine : Bool) (addr : Nat)
    (hlen : line.length ≤ 128)
    (henc : ∀ c ∈ line, encodable c)
    (hnil : lastLine = false → line ≠ []) :
    ∃ fs a2,
      textFramesOfChunks ((pyWrap 128 line).take 3) lastLine addr = .ok (fs, a2)
        ∧ decodeConcat fs = .ok (if lastLine then line else line ++ ['\n'])
        ∧ wellAddressed addr fs
        ∧ a2 = addr + (fs.map (fun f => f.data.length)).sum := by
  by_cases hn : line = []
  · have hlast : lastLine = true := by
      cases lastLine with
      | false => exact absurd hn (hnil rfl)
      | true => rfl
    subst hn hlast
    refine ⟨[], addr, ?_, ?_, trivial, by simp⟩
    · rfl
    · rfl
  · rw [pyWrap_short 128 line hlen, if_neg hn]
    obtain ⟨ns, he, hd⟩ := encodeText_roundtrip line henc
    have hdata : decodeText (if lastLine then ns else ns ++ [13])
        = .ok (if lastLine then line else line ++ ['\n']) := by
      cases lastLine with
      | true => simpa using hd
      | false =>
          simp only [if_false, Bool.false_eq_true]
          exact decodeText_append ns [13] line ['\n'] hd decodeText_newline
    refine ⟨[mkTextFrame addr (if lastLine then ns else ns ++ [13])],
      addr + (if lastLine then ns else ns ++ [13]).length, ?_, ?_, ?_, ?_⟩
    · show textFramesOfChunks [line] lastLine addr = _
      simp only [textFramesOfChunks]
      rw [he]
      rfl
    · simp only [decodeConcat, List.map_cons, List.map_nil, List.flatten_cons,
        List.flatten_nil, List.append_nil, mkTextFrame]
      exact hdata
    · exact ⟨rfl, rfl, trivial⟩
    · simp [mkTextFrame]

theorem wellAddressed_append (fs1 fs2 : List Frame) :
    ∀ off, wellAddressed off fs1 →
      wellAddressed (off + (fs1.map (fun f => f.data.length)).sum) fs2 →
      wellAddressed off (fs1 ++ fs2) := by
  induction fs1 with
  | nil => intro off _ h2; simpa using h2
  | cons f fs ih =>
      intro off h1 h2
      obtain ⟨ht, ha, hrest⟩ := h1
      refine ⟨ht, ha, ?_⟩
      refine ih (off + f.data.length) hrest ?_
      have : off + f.data.length + (fs.map (fun g => g.data.length)).sum
          = off + ((f :: fs).map (fun g => g.data.length)).sum := by
        simp
        omega
      rw [this]
      exact h2

theorem processLines_ok (lines : List (List Char)) :
    ∀ addr : Nat,
      (∀ line ∈ lines, line.length ≤ 128) →
      (∀ line ∈ lines.dropLast, line ≠ []) →
      (∀ line ∈ lines, ∀ c ∈ line, encodable c) →
      ∃ fs a2, processLines lines addr = .ok (fs, a2)
        ∧ decodeConcat fs = .ok (joinSep '\n' lines)
        ∧ wellAddressed addr fs
        ∧ a2 = addr + (fs.map (fun f => f.data.length)).sum := by
  induction lines with
  | nil =>
      intro addr _ _ _
      exact ⟨[], addr, rfl, rfl, trivial, by simp⟩
  | cons line rest ih =>
      intro addr hlen hne henc
      cases rest with
      | nil =>
          obtain ⟨fs, a2, hrun, hdec, hwa, ha2⟩ :=
            textFramesOfChunks_line line true addr (hlen line (by simp))
              (henc line (by simp)) (by intro h; cases h)
          refine ⟨fs, a2, ?_, ?_, hwa, ha2⟩
          · exact hrun
          · simpa using hdec
      | cons g gs =>
          have hline_ne : line ≠ [] := hne line (by simp [List.dropLast])
          obtain ⟨fs1, a1, hrun1, hdec1, hwa1, ha1⟩ :=
            textFramesOfChunks_line line false addr (hlen line (by simp))
              (henc line (by simp)) (fun _ => hline_ne)
          obtain ⟨fs2, a2, hrun2, hdec2, hwa2, ha2⟩ :=
            ih a1 (fun l hl => hlen l (List.mem_cons_of_mem _ hl))
              (by
                intro l hl
                refine hne l ?_
                rw [List.dropLast_cons_of_ne_nil (by simp)]
                exact List.mem_cons_of_mem _ hl)
              (fun l hl => henc l (List.mem_cons_of_mem _ hl))
          refine ⟨fs1 ++ fs2, a2, ?_, ?_, ?_, ?_⟩
          · show processLines (line :: g :: gs) addr = _
            simp only [processLines, hrun1, bind_ok_eq, hrun2]
          · simp only [decodeConcat, List.map_append, List.flatten_append] at hdec1 hdec2 ⊢
            have := decodeText_append _ _ _ _ hdec1 hdec2
            rw [this]
            rw [joinSep_cons_cons]
            simp
          · refine wellAddressed_append fs1 fs2 addr hwa1 ?_
            rw [← ha1]
            exact hwa2
          · rw [ha2, ha1]
            simp
            omega

/-- The concrete input refuting C6 as stated: a 129-character first line
(one chunk too many) followed by a newline and a second line. -/
def c6Input : List Char := List.replicate 129 'a' ++ '\n' :: ['b']

set_option maxRecDepth 40000 in
/-- C6 counterexample: `c6Input` is encodable and within 376 characters, yet
the decoded concatenation of `Text.from_text(c6Input)` differs from the
input: the long first line wraps into two chunks and the newline code is
appended after each chunk of the non-final line, duplicating the newline. -/
theorem text_fragmentation_counterexample :
    c6Input.length ≤ 376
      ∧ (∀ c ∈ c6Input, encodable c)
      ∧ (from_text c6Input).bind decodeConcat
          = .ok (List.replicate 128 'a' ++ '\n' :: 'a' :: '\n' :: ['b'])
      ∧ (List.replicate 128 'a' ++ '\n' :: 'a' :: '\n' :: ['b'] : List Char) ≠ c6Input := by
  refine ⟨by decide, by decide, ?_, by decide⟩
  rfl

/-- C6 (amended): for every string of encodable characters of at most 376
characters whose lines are each at most 128 characters long and whose
non-final lines are non-empty, `Text.from_text` succeeds, the concatenation
of the frames' decoded data equals the input, and the frames follow the
type 0x80 / type 0x81 address discipline with contiguous offsets. -/
theorem text_fragmentation_amended (s : List Char)
    (henc : ∀ c ∈ s, encodable c)
    (hlen : s.length ≤ 376)
    (hline : ∀ line ∈ splitOnChar '\n' s, line.length ≤ 128)
    (hne : ∀ line ∈ (splitOnChar '\n' s).dropLast, line ≠ []) :
    ∃ fs, from_text s = .ok fs
      ∧ decodeConcat fs = .ok s
      ∧ wellAddressed 0 fs := by
  obtain ⟨fs, a2, hrun, hdec, hwa, _⟩ :=
    processLines_ok (splitOnChar '\n' s) 0 hline hne
      (fun l hl c hc => henc c (mem_of_mem_splitOnChar '\n' s l c hl hc))
  refine ⟨fs, ?_, ?_, hwa⟩
  · show from_text_list [s] = .ok fs
    unfold from_text_list
    rw [if_neg (by simpa using hlen)]
    show (fromTextAux s true 0).map (fun pr => pr.1) = .ok fs
    unfold fromTextAux
    rw [if_neg (by simpa using hlen)]
    rw [show (if true = true then s else s ++ ['\x1F']) = s from if_pos rfl]
    rw [hrun]
    rfl
  · rw [hdec, joinSep_splitOnChar]

/-- Witness for C6 (amended): the property applied to the concrete string
"Hi" newline "y". -/
theorem text_fragmentation_amended_witness :
    ∃ fs, from_text ('H' :: 'i' :: '\n' :: ['y']) = .ok fs
      ∧ decodeConcat fs = .ok ('H' :: 'i' :: '\n' :: ['y'])
      ∧ wellAddressed 0 fs :=
  text_fragmentation_amended ('H' :: 'i' :: '\n' :: ['y'])
    (by decide) (by decide) (by decide) (by decide)

/-- Model of `Color.from_color`. -/
def Color.from_color (c : Colors) : Frame :=
  ⟨.color, 1, 0x71, 0, [c.val], calculate_checksum 1 0x71 0 [c.val]⟩

/-- Model of the `Color.color` property (`_CODE_TO_COLOR[self.data[0]]`,
`KeyError` on an unmapped code, `IndexError` on empty data). -/
def colorOfFrame (f : Frame) : Except String Colors :=
  match f.data.head? with
  | some 1 => .ok .blue
  | some 2 => .ok .orange
  | some 4 => .ok .green
  | _ => .error "KeyError"

/-- Model of `Priority.from_priority`. -/
def Priority.from_priority (p : Priorities) : Frame :=
  ⟨.priority, 1, 0x72, 0, [p.val], calculate_checksum 1 0x72 0 [p.val]⟩

/-- Model of the `Priority.priority` property. -/
def priorityOfFrame (f : Frame) : Except String Priorities :=
  match f.data.head? with
  | some 0x10 => .ok .A
  | some 0x20 => .ok .B
  | some 0x30 => .ok .C
  | _ => .error "KeyError"

/-- Model of `Illustration.from_number`. -/
def Illustration.from_number (n : Nat) : Frame :=
  ⟨.illustration, 1, 0x21, 0, [n], calculate_checksum 1 0x21 0 [n]⟩

/-- Model of the `Illustration.number` property (`self.data[0]`). -/
def illustrationNumber (f : Frame) : Except String Nat :=
  match f.data.head? with
  | some n => .ok n
  | none => .error "IndexError"

/-- Model of `EndOfRecord.get`. -/
def EndOfRecord.get : Frame := ⟨.endOfRecord, 0, 0, 0x100, [], calculate_checksum 0 0 0x100 []⟩

/-- Model of `EndOfTransmission.get`. -/
def EndOfTransmission.get : Frame :=
  ⟨.endOfTransmission, 0, 0, 0xFF00, [], calculate_checksum 0 0 0xFF00 []⟩

/-- The `DATA` payload of each `Directory` class. -/
def directoryData : FrameKind → List Nat
  | .telephoneDirectory => [0x90, 0]
  | .businessCardDirectory => [0xC0, 0]
  | .memoDirectory => [0xA0, 0]
  | .calendarDirectory => [0x80, 0]
  | .scheduleDirectory => [0xB0, 0]
  | .reminderDirectory => [0x91, 0]
  | .toDoDirectory => [0xC1, 0]
  | .expenseManagerDirectory => [0x92, 0]
  | _ => [0, 0]

/-- Model of `Directory.get` for a directory class. -/
def Directory.get (kind : FrameKind) : Frame :=
  ⟨kind, 2, 0, 0x200, directoryData kind, calculate_checksum 2 0 0x200 (directoryData kind)⟩

/-- Decimal digits of a natural number (the characters of `str(n)`). -/
def natDigits (n : Nat) : List Char := Nat.toDigits 10 n

/-- Model of Python `"%.Nd" % n`: zero-pad the decimal form to width `w`. -/
def padDigits (w n : Nat) : List Char :=
  List.replicate (w - (natDigits n).length) '0' ++ natDigits n

/-- Total encoding of a generated text into device codes.  Every character
the date/time builders produce (digits, dash, colon, tilde) is in the table,
so the `getD 0` default is unreachable there. -/
def encodeTextD (s : List Char) : List Nat := s.map (fun c => (encodeChar c).getD 0)

/-- Model of Python `int(s)` restricted to plain digit strings (the only
form the parsers feed it). -/
def pyInt (s : List Char) : Except String Nat :=
  if s ≠ [] ∧ s.all (fun c => c.isDigit) then
    .ok (s.foldl (fun acc c => acc * 10 + (c.toNat - 48)) 0)
  else .error "invalid literal for int"

/-- Model of `datetime.date` values. -/
structure PyDate where
  year : Nat
  month : Nat
  day : Nat
deriving DecidableEq, Repr

/-- Model of `datetime.time` values (hours and minutes; the code never sets
seconds). -/
structure PyTime where
  hour : Nat
  minute : Nat
deriving DecidableEq, Repr

def isLeapYear (y : Nat) : Bool := (y % 4 == 0 && y % 100 != 0) || y % 400 == 0

def daysInMonth (y m : Nat) : Nat :=
  if m == 2 then (if isLeapYear y then 29 else 28)
  else if m == 4 || m == 6 || m == 9 || m == 11 then 30
  else 31

/-- Model of the `datetime.date` constructor with its range validation. -/
def pyDate (y m d : Nat) : Except String PyDate :=
  if 1 ≤ y ∧ y ≤ 9999 ∧ 1 ≤ m ∧ m ≤ 12 ∧ 1 ≤ d ∧ d ≤ daysInMonth y m then
    .ok ⟨y, m, d⟩
  else .error "date value out of range"

/-- Model of the `datetime.time` constructor with its range validation. -/
def pyTime (h m : Nat) : Except String PyTime :=
  if h ≤ 23 ∧ m ≤ 59 then .ok ⟨h, m⟩ else .error "time value out of range"

/-- Model of `Date.from_values` parametrized by the runtime class (`Date` or
`DeadlineDate`).  Both classes build with `cls.LENGTH = 10`,
`cls.TYPE = 0xF0` and `cls.ADDRESS = 0`: `DeadlineDate` overrides only
`match` and `DESCRIPTION`, not `TYPE`, so even a `DeadlineDate` instance is
built with type byte 0xF0. -/
def Date.from_values (kind : FrameKind) (year month day : Option Nat) : Frame :=
  let year_str := match year with | none => ['-', '-', '-', '-'] | some y => padDigits 4 y
  let month_str := match month with | none => ['-', '-'] | some m => padDigits 2 m
  let day_str := match day with | none => ['-', '-'] | some d => padDigits 2 d
  let data := encodeTextD (year_str ++ '-' :: month_str ++ '-' :: day_str)
  ⟨kind, 10, 0xF0, 0, data, calculate_checksum 10 0xF0 0 data⟩

/-- Model of `Date.from_date` (all three components present). -/
def Date.from_date (kind : FrameKind) (d : PyDate) : Frame :=
  Date.from_values kind (some d.year) (some d.month) (some d.day)

/-- Model of `Date._get_date` on the decoded text: a component is `None`
when its first character is `-`, else `int()` of its digits.  Python indexes
positions 0, 5 and 8 of the text; a shorter text raises `IndexError`. -/
def dateFieldsOfText (t : List Char) : Except String (Option Nat × Option Nat × Option Nat) := do
  if ht : t.length < 10 then .error "IndexError"
  else do
    let year ← if t.get ⟨0, by omega⟩ == '-' then pure none
      else (pyInt (t.take 4)).map some
    let month ← if t.get ⟨5, by omega⟩ == '-' then pure none
      else (pyInt ((t.drop 5).take 2)).map some
    let day ← if t.get ⟨8, by omega⟩ == '-' then pure none
      else (pyInt ((t.drop 8).take 2)).map some
    .ok (year, month, day)

/-- The `year`/`month`/`day` properties of a Date frame. -/
def dateFieldsOfFrame (f : Frame) : Except String (Option Nat × Option Nat × Option Nat) := do
  let t ← decodeText f.data
  dateFieldsOfText t

/-- Model of the `Date.date` property: all three components must be present
(`RuntimeError` otherwise), then `datetime.date` validates them. -/
def dateOfFrame (f : Frame) : Except String PyDate := do
  let (year, month, day) ← dateFieldsOfFrame f
  match year, month, day with
  | some y, some m, some d => pyDate y m d
  | none, _, _ => .error "Missing year"
  | _, none, _ => .error "Missing month"
  | _, _, none => .error "Missing day"

/-- The `TYPE` class attribute of each `Time` subclass (`Time` 0xE0,
`DeadlineTime` 0xE4, `ToDoAlarm` 0xC4, `Alarm` 0xC0). -/
def timeClassType : FrameKind → Nat
  | .deadlineTime => 0xE4
  | .toDoAlarm => 0xC4
  | .alarm => 0xC0
  | _ => 0xE0

/-- Model of `Time.from_time` parametrized by the runtime class. -/
def Time.from_time (kind : FrameKind) (t : PyTime) : Frame :=
  let ttype := timeClassType kind
  let data := encodeTextD (padDigits 2 t.hour ++ ':' :: padDigits 2 t.minute)
  ⟨kind, 5, ttype, 0, data, calculate_checksum 5 ttype 0 data⟩

/-- Parse `HH:MM` as the `Time.time` property does: split on `:`, unpack
exactly two pieces, `int()` each, validate with `datetime.time`. -/
def timeOfText (t : List Char) : Except String PyTime := do
  match splitOnChar ':' t with
  | [hs, ms] => do
      let h ← pyInt hs
      let m ← pyInt ms
      pyTime h m
  | _ => .error "unpack"

/-- Model of the `Time.time` property. -/
def timeOfFrame (f : Frame) : Except String PyTime := do
  let t ← decodeText f.data
  timeOfText t

/-- Model of `StartEndTime.from_start_end_times`. -/
def StartEndTime.from_start_end_times (s e : PyTime) : Frame :=
  let data := encodeTextD (padDigits 2 s.hour ++ ':' :: padDigits 2 s.minute
    ++ '~' :: padDigits 2 e.hour ++ ':' :: padDigits 2 e.minute)
  ⟨.startEndTime, 0xB, 0xE0, 0, data, calculate_checksum 0xB 0xE0 0 data⟩

/-- Model of `StartEndTime._get_start_end_times`: split the text on `~` and
parse piece 0 and piece 1 as times (`IndexError` if there is no `~`). -/
def startEndTimesOfFrame (f : Frame) : Except String (PyTime × PyTime) := do
  let t ← decodeText f.data
  match splitOnChar '~' t with
  | p0 :: p1 :: _ => do
      let st ← timeOfText p0
      let et ← timeOfText p1
      .ok (st, et)
  | _ => .error "IndexError"

/-- The bits set in one byte (`data & (1 << bit)` tests). -/
def bitsOfByte (b : Nat) : List Nat := (List.range 8).filter (fun bit => b.testBit bit)

/-- Model of the `DayHighlight.days` property: bit `bit` of `data[idx]` set
means day `(3 - idx) * 8 + bit + 1` is highlighted. -/
def dayHighlightDays (data : List Nat) : Finset Nat :=
  ((data.enum.map (fun p => (bitsOfByte p.2).map (fun bit => (3 - p.1) * 8 + bit + 1))).flatten).toFinset

/-- Model of `DayHighlight.from_days`: byte `(day-1) div 8` gets bit
`(day-1) mod 8`, then the four bytes are reversed.  The per-day OR loop is
order-independent, so the bytes are computed bit by bit from membership.
Python raises for more than 32 days (`ValueError`) or day > 32
(`IndexError`); the model also rejects day 0, which in Python would corrupt
byte 0 through the negative-modulo quirk (days are 1-based in practice). -/
def DayHighlight.from_days (days : Finset Nat) : Except String Frame :=
  if days.card > 32 then .error "Invalid number of days"
  else if ¬ (∀ d ∈ days, 1 ≤ d ∧ d ≤ 32) then .error "IndexError"
  else
    let byte := fun i => (List.range 8).foldl
      (fun acc bit => if i * 8 + bit + 1 ∈ days then acc ||| (1 <<< bit) else acc) 0
    let data := (List.range 4).map byte |>.reverse
    .ok ⟨.dayHighlight, 4, 0xD0, 0, data, calculate_checksum 4 0xD0 0 data⟩

/-- Model of the color extraction in
`DayColorHighlight._get_day_color_highlight`: the first of BLUE, ORANGE,
GREEN whose bit is set; a byte with no color bit leaves the Python variable
unbound (`UnboundLocalError`). -/
def colorOfInfo (info : Nat) : Except String Colors :=
  if info &&& 0x1 ≠ 0 then .ok .blue
  else if info &&& 0x2 ≠ 0 then .ok .orange
  else if info &&& 0x4 ≠ 0 then .ok .green
  else .error "UnboundLocalError"

/-- Model of `DayColorHighlight._get_day_color_highlight`: one
(color, highlight) pair per byte of the reversed data. -/
def dayColorHighlightPairs (data : List Nat) : Except String (List (Colors × Bool)) :=
  data.reverse.mapM (fun info => (colorOfInfo info).map (fun c => (c, info &&& 0x80 ≠ 0)))

/-- Model of the `DayColorHighlight.days` property (entries past day 31 are
ignored). -/
def dayColorHighlightDays (data : List Nat) : Except String (Finset Nat) := do
  let pairs ← dayColorHighlightPairs data
  .ok (((pairs.take 31).enum.filter (fun p => p.2.2)).map (fun p => p.1 + 1)).toFinset

/-- Model of the `DayColorHighlight.colors` property (first 31 entries). -/
def dayColorHighlightColors (data : List Nat) : Except String (List Colors) := do
  let pairs ← dayColorHighlightPairs data
  .ok ((pairs.take 31).map (fun p => p.1))

/-- Model of `DayColorHighlight.from_days_and_colors`: byte `day - 1` gets
0x80, byte `idx` gets `colors[idx].value`, then the 32 bytes are reversed.
Python rejects more than 32 days or 32+ colors, and day > 31; the model also
rejects day 0 (Python would hit byte 31 through negative indexing). -/
def DayColorHighlight.from_days_and_colors (days : Finset Nat) (colors : List Colors) :
    Except String Frame :=
  if days.card > 32 then .error "invalid days lengths"
  else if colors.length ≥ 32 then .error "invalid colors length"
  else if ¬ (∀ d ∈ days, 1 ≤ d ∧ d ≤ 31) then .error "invalid day"
  else
    let byte := fun i =>
      (if i + 1 ∈ days then 0x80 else 0)
        ||| (match colors.get? i with | some c => c.val | none => 0)
    let data := (List.range 32).map byte |>.reverse
    .ok ⟨.dayColorHighlight, 0x20, 0x78, 0, data, calculate_checksum 0x20 0x78 0 data⟩

/-- The loop body of `record._raw_list_to_text_list`, walking the reversed
raw list: leading `None`s (from the back) are dropped, interior `None`s
become empty strings, values are kept. -/
def rawToTextGo : List (Option PyStr) → Bool → List PyStr → List PyStr
  | [], _, acc => acc
  | none :: rest, data, acc =>
      if data then rawToTextGo rest data ([] :: acc) else rawToTextGo rest data acc
  | some e :: rest, _, acc => rawToTextGo rest true (e :: acc)

/-- Model of `record._raw_list_to_text_list`. -/
def raw_list_to_text_list (raw : List (Option PyStr)) : List PyStr :=
  rawToTextGo raw.reverse false []

/-- The shared frame scan of `Telephone`/`BusinessCard`/`Memo`/`Expense`
`.from_frames`: a Color frame overwrites the color, a Text frame's decoded
text is appended, any other frame kind raises. -/
def scanTextColor : List Frame → PyStr → Option Colors → Except String (PyStr × Option Colors)
  | [], text, color => .ok (text, color)
  | f :: rest, text, color =>
      if f.kind = .color then do
        let c ← colorOfFrame f
        scanTextColor rest text (some c)
      else if f.kind = .text then do
        let t ← decodeText f.data
        scanTextColor rest (text ++ t) color
      else .error "Unknown frame type"

/-- Fields recovered from the accumulated text: split on the unit separator
and turn empty pieces into `None`. -/
def fieldsOfText (text : PyStr) : List (Option PyStr) :=
  (splitOnChar '\x1F' text).map (fun v => if v = [] then none else some v)

/-- Model of the dataclass `record.Telephone`. -/
structure Telephone where
  name : PyStr
  number : Option PyStr
  address : Option PyStr
  free1 : Option PyStr
  free2 : Option PyStr
  free3 : Option PyStr
  free4 : Option PyStr
  free5 : Option PyStr
  free6 : Option PyStr
  color : Option Colors
deriving DecidableEq, Repr

/-- Model of `Telephone.from_frames`. -/
def Telephone.from_frames (frames : List Frame) : Except String Telephone := do
  let (text, color) ← scanTextColor frames [] none
  let fields := fieldsOfText text
  match fields with
  | [] => .error "Missing name text frame"
  | f0 :: rest =>
      match f0 with
      | none => .error "Missing name text field"
      | some name =>
          .ok ⟨name, rest.getD 0 none, rest.getD 1 none, rest.getD 2 none,
            rest.getD 3 none, rest.getD 4 none, rest.getD 5 none,
            rest.getD 6 none, rest.getD 7 none, color⟩

/-- Model of `Telephone.to_frames`: optional Color frame first, then the
Text frames of the separator-joined field list. -/
def Telephone.to_frames (t : Telephone) : Except String (List Frame) := do
  let text_list := raw_list_to_text_list
    [some t.name, t.number, t.address, t.free1, t.free2, t.free3, t.free4, t.free5, t.free6]
  let tfs ← from_text_list text_list
  .ok ((match t.color with | some c => [Color.from_color c] | none => []) ++ tfs)

/-- Model of the dataclass `record.BusinessCard`. -/
structure BusinessCard where
  employer : PyStr
  name : PyStr
  telephone_number : Option PyStr
  telex_number : Option PyStr
  fax_number : Option PyStr
  position : Option PyStr
  department : Option PyStr
  po_box : Option PyStr
  address : Option PyStr
  memo : Option PyStr
  color : Option Colors
deriving DecidableEq, Repr

/-- Model of `BusinessCard.from_frames`. -/
def BusinessCard.from_frames (frames : List Frame) : Except String BusinessCard := do
  let (text, color) ← scanTextColor frames [] none
  let fields := fieldsOfText text
  match fields with
  | f0 :: f1 :: rest =>
      match f0, f1 with
      | some employer, some name =>
          .ok ⟨employer, name, rest.getD 0 none, rest.getD 1 none, rest.getD 2 none,
            rest.getD 3 none, rest.getD 4 none, rest.getD 5 none, rest.getD 6 none,
            rest.getD 7 none, color⟩
      | none, _ => .error "Missing employer"
      | _, none => .error "Missing name"
  | _ => .error "Missing name and / or employer text frame"

/-- Model of `BusinessCard.to_frames`. -/
def BusinessCard.to_frames (b : BusinessCard) : Except String (List Frame) := do
  let text_list := raw_list_to_text_list
    [some b.employer, some b.name, b.telephone_number, b.telex_number, b.fax_number,
      b.position, b.department, b.po_box, b.address, b.memo]
  let tfs ← from_text_list text_list
  .ok ((match b.color with | some c => [Color.from_color c] | none => []) ++ tfs)

/-- Model of the dataclass `record.Memo`. -/
structure Memo where
  text : PyStr
  color : Option Colors
deriving DecidableEq, Repr

/-- Model of `Memo.from_frames` (no field splitting: the raw accumulated
text is the memo). -/
def Memo.from_frames (frames : List Frame) : Except String Memo := do
  let (text, color) ← scanTextColor frames [] none
  .ok ⟨text, color⟩

/-- Model of `Memo.to_frames`. -/
def Memo.to_frames (m : Memo) : Except String (List Frame) := do
  let tfs ← from_text_list [m.text]
  .ok ((match m.color with | some c => [Color.from_color c] | none => []) ++ tfs)

/-- Model of the dataclass `record.Calendar`. -/
structure Calendar where
  year : Nat
  month : Nat
  days : Finset Nat
  colors : Option (List Colors)
deriving DecidableEq

/-- The loop of `Calendar.from_frames` (`isinstance(f, Date)` also accepts
`DeadlineDate`, a `Date` subclass). -/
def calendarScan : List Frame → Nat → Nat → Finset Nat → Option (List Colors) →
    Except String (Nat × Nat × Finset Nat × Option (List Colors))
  | [], year, month, days, colors => .ok (year, month, days, colors)
  | f :: rest, year, month, days, colors =>
      if f.kind = .date ∨ f.kind = .deadlineDate then do
        let (y, m, _) ← dateFieldsOfFrame f
        match y with
        | none => .error "Missing year"
        | some yv =>
            match m with
            | none => .error "Missing month"
            | some mv => calendarScan rest yv mv days colors
      else if f.kind = .dayHighlight then
        calendarScan rest year month (days ∪ dayHighlightDays f.data) colors
      else if f.kind = .dayColorHighlight then do
        let ds ← dayColorHighlightDays f.data
        let cs ← dayColorHighlightColors f.data
        calendarScan rest year month (days ∪ ds) (some cs)
      else .error "Unknown frame type"

/-- Model of `Calendar.from_frames`: year and month start at 0 and must have
been set by a Date frame. -/
def Calendar.from_frames (frames : List Frame) : Except String Calendar := do
  let (year, month, days, colors) ← calendarScan frames 0 0 ∅ none
  if year = 0 ∨ month = 0 then .error "Missing Date frame"
  else .ok ⟨year, month, days, colors⟩

/-- Model of `Calendar.to_frames`: Date at day 1 (validated by
`datetime.date`), DayHighlight, optional DayColorHighlight. -/
def Calendar.to_frames (c : Calendar) : Except String (List Frame) := do
  let d ← pyDate c.year c.month 1
  let dh ← DayHighlight.from_days c.days
  match c.colors with
  | none => .ok [Date.from_date .date d, dh]
  | some cs => do
      let dch ← DayColorHighlight.from_days_and_colors c.days cs
      .ok [Date.from_date .date d, dh, dch]

/-- Model of the dataclass `record.Schedule`. -/
structure Schedule where
  date : PyDate
  start_time : Option PyTime
  end_time : Option PyTime
  alarm_time : Option PyTime
  illustration : Option Nat
  description : Option PyStr
  color : Option Colors
deriving DecidableEq, Repr

/-- The `__post_init__` invariant of `Schedule`. -/
def Schedule.post_init_ok (s : Schedule) : Prop :=
  ¬(s.start_time = none ∧ s.description = none)
    ∧ (s.end_time ≠ none → s.start_time ≠ none)
    ∧ (s.alarm_time ≠ none → s.start_time ≠ none)

instance (s : Schedule) : Decidable s.post_init_ok := by
  unfold Schedule.post_init_ok
  infer_instance

/-- The loop of `Schedule.from_frames`, mirroring the `isinstance` chain:
Color, Date (including DeadlineDate), StartEndTime, Alarm, Illustration,
Text (accumulated), then Time (including the remaining Time subclasses). -/
def scheduleScan : List Frame → Option Colors → Option PyDate → Option PyTime →
    Option PyTime → Option PyTime → Option Nat → Option PyStr →
    Except String (Option Colors × Option PyDate × Option PyTime × Option PyTime
      × Option PyTime × Option Nat × Option PyStr)
  | [], color, date, st, et, at_, il, desc => .ok (color, date, st, et, at_, il, desc)
  | f :: rest, color, date, st, et, at_, il, desc =>
      if f.kind = .color then do
        let c ← colorOfFrame f
        scheduleScan rest (some c) date st et at_ il desc
      else if f.kind = .date ∨ f.kind = .deadlineDate then do
        let d ← dateOfFrame f
        scheduleScan rest color (some d) st et at_ il desc
      else if f.kind = .startEndTime then do
        let (s, e) ← startEndTimesOfFrame f
        scheduleScan rest color date (some s) (some e) at_ il desc
      else if f.kind = .alarm then do
        let t ← timeOfFrame f
        scheduleScan rest color date st et (some t) il desc
      else if f.kind = .illustration then do
        let n ← illustrationNumber f
        scheduleScan rest color date st et at_ (some n) desc
      else if f.kind = .text then do
        let t ← decodeText f.data
        scheduleScan rest color date st et at_ il (some ((desc.getD []) ++ t))
      else if f.kind = .time ∨ f.kind = .deadlineTime ∨ f.kind = .toDoAlarm then do
        let t ← timeOfFrame f
        scheduleScan rest color date (some t) et at_ il desc
      else .error "Unknown frame type"

/-- Model of `Schedule.from_frames`: the date is mandatory, and the
constructor re-checks the `__post_init__` invariant. -/
def Schedule.from_frames (frames : List Frame) : Except String Schedule := do
  let (color, date, st, et, at_, il, desc) ← scheduleScan frames none none none none none none none
  match date with
  | none => .error "Missing date"
  | some d =>
      let s : Schedule := ⟨d, st, et, at_, il, desc, color⟩
      if s.post_init_ok then .ok s else .error "post_init"

/-- Model of `Schedule.to_frames`: Date, then Time or StartEndTime, then
Alarm, Illustration, Color, description Text frames. -/
def Schedule.to_frames (s : Schedule) : Except String (List Frame) := do
  let timeFrames : List Frame :=
    match s.start_time with
    | none => []
    | some st =>
        match s.end_time with
        | none => [Time.from_time .time st]
        | some et => [StartEndTime.from_start_end_times st et]
  let alarmFrames : List Frame :=
    match s.alarm_time with | none => [] | some t => [Time.from_time .alarm t]
  let illusFrames : List Frame :=
    match s.illustration with | none => [] | some n => [Illustration.from_number n]
  let colorFrames : List Frame :=
    match s.color with | none => [] | some c => [Color.from_color c]
  let textFrames ← match s.description with
    | none => pure ([] : List Frame)
    | some d => from_text d
  .ok ([Date.from_date .date s.date] ++ timeFrames ++ alarmFrames ++ illusFrames
    ++ colorFrames ++ textFrames)

/-- Model of the dataclass `record.Reminder`. -/
structure Reminder where
  month : Option Nat
  day : Option Nat
  alarm_time : Option PyTime
  description : PyStr
  color : Option Colors
deriving DecidableEq, Repr

/-- The `__post_init__` invariant of `Reminder`. -/
def Reminder.post_init_ok (r : Reminder) : Prop := r.month ≠ none → r.day ≠ none

instance (r : Reminder) : Decidable r.post_init_ok := by
  unfold Reminder.post_init_ok
  infer_instance

/-- The loop of `Reminder.from_frames`: a Date frame with a year raises, a
Text frame replaces (not appends to) the description. -/
def reminderScan : List Frame → Option Colors → Option Nat → Option Nat → Option PyTime →
    PyStr → Except String (Option Colors × Option Nat × Option Nat × Option PyTime × PyStr)
  | [], color, month, day, at_, desc => .ok (color, month, day, at_, desc)
  | f :: rest, color, month, day, at_, desc =>
      if f.kind = .color then do
        let c ← colorOfFrame f
        reminderScan rest (some c) month day at_ desc
      else if f.kind = .date ∨ f.kind = .deadlineDate then do
        let (y, m, d) ← dateFieldsOfFrame f
        match y with
        | some _ => .error "cant set reminder for a single year"
        | none => reminderScan rest color m d at_ desc
      else if f.kind = .alarm then do
        let t ← timeOfFrame f
        reminderScan rest color month day (some t) desc
      else if f.kind = .text then do
        let t ← decodeText f.data
        reminderScan rest color month day at_ t
      else .error "Unknown frame type"

/-- Model of `Reminder.from_frames`: an empty description raises, and the
constructor re-checks the `__post_init__` invariant. -/
def Reminder.from_frames (frames : List Frame) : Except String Reminder := do
  let (color, month, day, at_, desc) ← reminderScan frames none none none none []
  if desc = [] then .error "Missing description"
  else
    let r : Reminder := ⟨month, day, at_, desc, color⟩
    if r.post_init_ok then .ok r else .error "cant set month without day"

/-- Model of `Reminder.to_frames`: Date with the year absent, optional
Alarm, description Text frames, optional Color last. -/
def Reminder.to_frames (r : Reminder) : Except String (List Frame) := do
  let textFrames ← from_text r.description
  .ok ([Date.from_values .date none r.month r.day]
    ++ (match r.alarm_time with | none => [] | some t => [Time.from_time .alarm t])
    ++ textFrames
    ++ (match r.color with | none => [] | some c => [Color.from_color c]))

/-- Model of the dataclass `record.ToDo`. -/
structure ToDo where
  deadline_date : Option PyDate
  deadline_time : Option PyTime
  alarm : Option PyTime
  checked_date : Option PyDate
  checked_time : Option PyTime
  description : PyStr
  priority : Option Priorities
deriving DecidableEq, Repr

/-- The `__post_init__` invariant of `ToDo`. -/
def ToDo.post_init_ok (t : ToDo) : Prop :=
  (t.deadline_time ≠ none → t.deadline_date ≠ none)
    ∧ (t.alarm ≠ none → t.deadline_date ≠ none)
    ∧ (t.checked_time ≠ none → t.checked_date ≠ none ∧ t.deadline_date ≠ none)

instance (t : ToDo) : Decidable t.post_init_ok := by
  unfold ToDo.post_init_ok
  infer_instance

/-- The loop of `ToDo.from_frames`, mirroring the `isinstance` chain:
DeadlineDate, DeadlineTime, ToDoAlarm, Date, Time (which also accepts Alarm,
a Time subclass), Text (replacing the description), Priority. -/
def toDoScan : List Frame → Option PyDate → Option PyTime → Option PyTime →
    Option PyDate → Option PyTime → PyStr → Option Priorities →
    Except String (Option PyDate × Option PyTime × Option PyTime × Option PyDate
      × Option PyTime × PyStr × Option Priorities)
  | [], dd, dt, al, cd, ct, desc, pr => .ok (dd, dt, al, cd, ct, desc, pr)
  | f :: rest, dd, dt, al, cd, ct, desc, pr =>
      if f.kind = .deadlineDate then do
        let d ← dateOfFrame f
        toDoScan rest (some d) dt al cd ct desc pr
      else if f.kind = .deadlineTime then do
        let t ← timeOfFrame f
        toDoScan rest dd (some t) al cd ct desc pr
      else if f.kind = .toDoAlarm then do
        let t ← timeOfFrame f
        toDoScan rest dd dt (some t) cd ct desc pr
      else if f.kind = .date then do
        let d ← dateOfFrame f
        toDoScan rest dd dt al (some d) ct desc pr
      else if f.kind = .time ∨ f.kind = .alarm then do
        let t ← timeOfFrame f
        toDoScan rest dd dt al cd (some t) desc pr
      else if f.kind = .text then do
        let t ← decodeText f.data
        toDoScan rest dd dt al cd ct t pr
      else if f.kind = .priority then do
        let p ← priorityOfFrame f
        toDoScan rest dd dt al cd ct desc (some p)
      else .error "Unknown frame type"

/-- Model of `ToDo.from_frames`. -/
def ToDo.from_frames (frames : List Frame) : Except String ToDo := do
  let (dd, dt, al, cd, ct, desc, pr) ← toDoScan frames none none none none none [] none
  if desc = [] then .error "Missing description"
  else
    let t : ToDo := ⟨dd, dt, al, cd, ct, desc, pr⟩
    if t.post_init_ok then .ok t else .error "Missing deadline_date"

/-- Model of `ToDo.to_frames`.  `DeadlineDate.from_date` inherits
`Date.TYPE = 0xF0` (the class overrides only `match`), so the deadline date
frame is emitted with type byte 0xF0. -/
def ToDo.to_frames (t : ToDo) : Except String (List Frame) := do
  let textFrames ← from_text t.description
  .ok ((match t.deadline_date with | none => [] | some d => [Date.from_date .deadlineDate d])
    ++ (match t.deadline_time with | none => [] | some x => [Time.from_time .deadlineTime x])
    ++ (match t.alarm with | none => [] | some x => [Time.from_time .toDoAlarm x])
    ++ (match t.checked_date with | none => [] | some d => [Date.from_date .date d])
    ++ (match t.checked_time with | none => [] | some x => [Time.from_time .time x])
    ++ (match t.priority with | none => [] | some p => [Priority.from_priority p])
    ++ textFrames)

/-- Model of the dataclass `record.Expense`.  The Python `amount` field is a
float; floating point is outside this embedding, so the model carries the
decimal string `str(amount)` that `to_frames` serializes (`from_frames`
stores the field text without re-validating Python's `float()` parse). -/
structure Expense where
  date : PyDate
  amount : PyStr
  payment_type : Option PyStr
  expense_type : Option PyStr
  rcpt : Option PyStr
  bus : Option PyStr
  description : Option PyStr
  color : Option Colors
deriving DecidableEq, Repr

/-- Model of `Expense.from_frames`: split the text, require date and amount,
parse the date as `"YYYY MM DD"` (exactly three space-separated pieces). -/
def Expense.from_frames (frames : List Frame) : Except String Expense := do
  let (text, color) ← scanTextColor frames [] none
  let fields := fieldsOfText text
  match fields with
  | f0 :: f1 :: rest =>
      match f0, f1 with
      | some date_str, some amount_str => do
          let date ← match splitOnChar ' ' date_str with
            | [ys, ms, ds] => do
                let y ← pyInt ys
                let m ← pyInt ms
                let d ← pyInt ds
                pyDate y m d
            | _ => .error "unpack"
          .ok ⟨date, amount_str, rest.getD 0 none, rest.getD 1 none, rest.getD 2 none,
            rest.getD 3 none, rest.getD 4 none, color⟩
      | _, _ => .error "AssertionError"
  | _ => .error "Missing date and/or amount."

/-- Model of `Expense.to_frames`: unlike the other field-list records this
passes all seven fields (empty strings for missing ones) straight to
`Text.from_text_list`; the date is formatted as unpadded `"Y M D"`. -/
def Expense.to_frames (e : Expense) : Except String (List Frame) := do
  let date_str := natDigits e.date.year ++ ' ' :: natDigits e.date.month
    ++ ' ' :: natDigits e.date.day
  let tfs ← from_text_list [date_str, e.amount, e.payment_type.getD [],
    e.expense_type.getD [], e.rcpt.getD [], e.bus.getD [], e.description.getD []]
  .ok ((match e.color with | some c => [Color.from_color c] | none => []) ++ tfs)

/-- The record taxonomy (`record.Record` subclasses). -/
inductive RecordValue
  | telephone (t : Telephone)
  | businessCard (b : BusinessCard)
  | memo (m : Memo)
  | calendar (c : Calendar)
  | schedule (s : Schedule)
  | reminder (r : Reminder)
  | toDo (t : ToDo)
  | expense (e : Expense)
deriving DecidableEq

/-- Dispatch of `Record.to_frames`. -/
def RecordValue.to_frames : RecordValue → Except String (List Frame)
  | .telephone t => t.to_frames
  | .businessCard b => b.to_frames
  | .memo m => m.to_frames
  | .calendar c => c.to_frames
  | .schedule s => s.to_frames
  | .reminder r => r.to_frames
  | .toDo t => t.to_frames
  | .expense e => e.to_frames

/-- Model of `Record.DIRECTORY_TO_RECORD`: the record builder registered for
each Directory subclass. -/
def directoryToRecord : FrameKind → Option (List Frame → Except String RecordValue)
  | .telephoneDirectory => some (fun fs => (Telephone.from_frames fs).map RecordValue.telephone)
  | .businessCardDirectory => some (fun fs => (BusinessCard.from_frames fs).map RecordValue.businessCard)
  | .memoDirectory => some (fun fs => (Memo.from_frames fs).map RecordValue.memo)
  | .calendarDirectory => some (fun fs => (Calendar.from_frames fs).map RecordValue.calendar)
  | .scheduleDirectory => some (fun fs => (Schedule.from_frames fs).map RecordValue.schedule)
  | .reminderDirectory => some (fun fs => (Reminder.from_frames fs).map RecordValue.reminder)
  | .toDoDirectory => some (fun fs => (ToDo.from_frames fs).map RecordValue.toDo)
  | .expenseManagerDirectory => some (fun fs => (Expense.from_frames fs).map RecordValue.expense)
  | _ => none

/-- The record aggregator states of the decoder (`_record_state`). -/
inductive RecordState
  | directoryOrRecord
  | start
  | frames
deriving DecidableEq, Repr

/-- The record-aggregation state of `Decoder`: the state tag, the remembered
directory class and the buffered frames.  `_record_directory_type` starts
unset and is never cleared; `none` models the unset attribute (where Python
would raise `AttributeError` on the membership test, the model takes the
unknown-record branch). -/
structure DecoderRecordState where
  state : RecordState
  directoryType : Option FrameKind
  frames : List Frame
deriving DecidableEq

/-- What `_decode_record` emits for a completed group. -/
inductive RecordAnnotation
  | record (r : RecordValue)
  | unknownRecord (fs : List Frame)
deriving DecidableEq

/-- The initial aggregator state (`Decoder.reset`). -/
def DecoderRecordState.initial : DecoderRecordState := ⟨.directoryOrRecord, none, []⟩

/-- Model of `Decoder._decode_record` on one decoded frame.  The Python
states fall through in one call: `directory_or_record` remembers a Directory
frame and returns, otherwise falls to `start`, which opens a fresh buffer
and falls to `frames`; there `EndOfRecord` closes the group — running
`from_frames` when the remembered directory kind has a record class, whose
uncaught `ValueError` propagates out of `decode()` (modelled as `.error`),
else emitting an unknown-record warning — and any other frame is buffered. -/
def decodeRecordStep (st : DecoderRecordState) (f : Frame) :
    Except String (DecoderRecordState × Option RecordAnnotation) :=
  if st.state = .directoryOrRecord ∧ f.kind.isDirectoryFamily then
    .ok (⟨.start, some f.kind, st.frames⟩, none)
  else
    let st1 : DecoderRecordState :=
      if st.state = .directoryOrRecord then ⟨.start, st.directoryType, st.frames⟩ else st
    let st2 : DecoderRecordState :=
      if st1.state = .start then ⟨.frames, st1.directoryType, []⟩ else st1
    if st2.state = .frames then
      if f.kind = .endOfRecord then
        match st2.directoryType with
        | some dk =>
            match directoryToRecord dk with
            | some builder =>
                match builder st2.frames with
                | .ok r => .ok (⟨.directoryOrRecord, st2.directoryType, st2.frames⟩, some (.record r))
                | .error e => .error e
            | none => .ok (⟨.directoryOrRecord, st2.directoryType, st2.frames⟩,
                some (.unknownRecord st2.frames))
        | none => .ok (⟨.directoryOrRecord, st2.directoryType, st2.frames⟩,
            some (.unknownRecord st2.frames))
      else .ok (⟨.frames, st2.directoryType, st2.frames ++ [f]⟩, none)
    else .ok (st2, none)

/-- Model of `Sender._wait_for_ack` applied to the byte read: ACK (0x23)
proceeds, NACK (0x3F) raises, any other byte raises. -/
def wait_for_ack (b : Nat) : Except String Unit :=
  if b = 0x23 then .ok ()
  else if b = 0x3F then .error "NACK received"
  else .error "Unexpected data"

/-- One blocking `read()` from the channel, modelled on a finite list of
available input bytes (an exhausted list blocks forever in Python; the model
makes it an error, which no theorem relies on). -/
def readByte : List Nat → Except String (Nat × List Nat)
  | [] => .error "blocked"
  | b :: rest => .ok (b, rest)

/-- Model of `Sender._send_record`: write the record's frames and an
`EndOfRecord`, then wait for the acknowledgement.  Returns the written
frames and the remaining input bytes. -/
def send_record (r : RecordValue) (reads : List Nat) :
    Except String (List Frame × List Nat) := do
  let fs ← r.to_frames
  let (b, reads1) ← readByte reads
  let _ ← wait_for_ack b
  .ok (fs ++ [EndOfRecord.get], reads1)

/-- The record loop of `Sender.send_directory_data`. -/
def send_records : List RecordValue → List Nat → Except String (List Frame × List Nat)
  | [], reads => .ok ([], reads)
  | r :: rs, reads => do
      let (fs1, reads1) ← send_record r reads
      let (fs2, reads2) ← send_records rs reads1
      .ok (fs1 ++ fs2, reads2)

/-- Model of `Sender.send_directory_data` after the handshake: for each
(directory, records) pair, write the directory frame and wait for ACK, then
send each record; after the last pair write `EndOfTransmission` without
reading anything further. -/
def send_directory_data : List (Frame × List RecordValue) → List Nat →
    Except String (List Frame × List Nat)
  | [], reads => .ok ([EndOfTransmission.get], reads)
  | (dir, rs) :: rest, reads => do
      let (b, reads1) ← readByte reads
      let _ ← wait_for_ack b
      let (fs1, reads2) ← send_records rs reads1
      let (fs2, reads3) ← send_directory_data rest reads2
      .ok (dir :: (fs1 ++ fs2), reads3)

theorem send_record_reads (r : RecordValue) (reads : List Nat) (fs : List Frame)
    (rest : List Nat) (h : send_record r reads = .ok (fs, rest)) :
    reads = 0x23 :: rest := by
  unfold send_record at h
  cases hto : r.to_frames with
  | error e => rw [hto] at h; cases h
  | ok frames =>
      rw [hto] at h
      cases reads with
      | nil => cases h
      | cons b reads1 =>
          simp only [readByte, bind_ok_eq] at h
          unfold wait_for_ack at h
          by_cases hb : b = 0x23
          · subst hb
            simp only [if_pos rfl, bind_ok_eq] at h
            cases h
            rfl
          · rw [if_neg hb] at h
            by_cases hn : b = 0x3F
            · rw [if_pos hn, bind_error_eq] at h
              exact Except.noConfusion h
            · rw [if_neg hn, bind_error_eq] at h
              exact Except.noConfusion h

theorem send_records_reads (rs : List RecordValue) :
    ∀ (reads : List Nat) (fs : List Frame) (rest : List Nat),
      send_records rs reads = .ok (fs, rest) →
      reads = List.replicate rs.length 0x23 ++ rest := by
  induction rs with
  | nil =>
      intro reads fs rest h
      unfold send_records at h
      cases h
      rfl
  | cons r rs ih =>
      intro reads fs rest h
      unfold send_records at h
      cases h1 : send_record r reads with
      | error e => rw [h1] at h; cases h
      | ok pr1 =>
          rw [h1] at h
          simp only [bind_ok_eq] at h
          cases h2 : send_records rs pr1.2 with
          | error e => rw [h2] at h; cases h
          | ok pr2 =>
              rw [h2] at h
              simp only [bind_ok_eq] at h
              cases h
              have hr1 := send_record_reads r reads pr1.1 pr1.2 (by rw [h1])
              have hr2 := ih pr1.2 pr2.1 pr2.2 (by rw [h2])
              rw [hr1, hr2]
              simp [List.replicate_succ]

theorem cons_replicate_acks (k m : Nat) (t : List Nat) :
    (0x23 : Nat) :: (List.replicate k 0x23 ++ (List.replicate m 0x23 ++ t))
      = List.replicate (1 + k + m) 0x23 ++ t := by
  rw [show 1 + k + m = (k + m) + 1 from by omega, List.replicate_succ,
    List.replicate_add]
  simp
  rw [List.replicate_add, List.append_assoc]

/-- C5: the decoder does not survive a malformed record group: a Calendar
directory frame followed immediately by `EndOfRecord` makes
`Calendar.from_frames` raise `ValueError("Missing Date frame")`, which
`Decoder._decode_record` does not catch, so the exception propagates out of
`decode()` and stops the stream — contradicting the recover-and-continue
policy the claim states. -/
theorem decoder_malformed_record_raises :
    decodeRecordStep DecoderRecordState.initial (Directory.get .calendarDirectory)
        = .ok (⟨.start, some .calendarDirectory, []⟩, none)
      ∧ decodeRecordStep ⟨.start, some .calendarDirectory, []⟩ EndOfRecord.get
        = .error "Missing Date frame" := by
  constructor
  · rfl
  · rfl

/-- C9: the sender proceeds past a required acknowledgement exactly when the
byte read is ACK (0x23); NACK (0x3F) and any other byte raise an error that
aborts the session; and a successful session consumes exactly one ACK per
directory and per record, ends with `EndOfTransmission` as the last written
frame, and reads nothing after it. -/
theorem sender_ack_protocol :
    (∀ b, wait_for_ack b = .ok () ↔ b = 0x23)
      ∧ wait_for_ack 0x3F = .error "NACK received"
      ∧ (∀ (data : List (Frame × List RecordValue)) (reads : List Nat)
          (ws : List Frame) (rest : List Nat),
          send_directory_data data reads = .ok (ws, rest) →
            ws.getLast? = some EndOfTransmission.get
              ∧ reads = List.replicate
                  (data.length + (data.map (fun p => p.2.length)).sum) 0x23 ++ rest) := by
  refine ⟨?_, rfl, ?_⟩
  · intro b
    constructor
    · intro h
      by_contra hb
      unfold wait_for_ack at h
      rw [if_neg hb] at h
      by_cases hn : b = 0x3F
      · rw [if_pos hn] at h; cases h
      · rw [if_neg hn] at h; cases h
    · intro h
      subst h
      rfl
  · intro data
    induction data with
    | nil =>
        intro reads ws rest h
        unfold send_directory_data at h
        cases h
        exact ⟨rfl, by simp⟩
    | cons p rest_data ih =>
        intro reads ws rest h
        obtain ⟨dir, rs⟩ := p
        unfold send_directory_data at h
        cases reads with
        | nil => cases h
        | cons b reads1 =>
            simp only [readByte, bind_ok_eq] at h
            by_cases hb : b = 0x23
            · subst hb
              unfold wait_for_ack at h
              rw [if_pos rfl, bind_ok_eq] at h
              cases h1 : send_records rs reads1 with
              | error e => rw [h1, bind_error_eq] at h; exact Except.noConfusion h
              | ok pr1 =>
                  rw [h1, bind_ok_eq] at h
                  cases h2 : send_directory_data rest_data pr1.2 with
                  | error e => rw [h2, bind_error_eq] at h; exact Except.noConfusion h
                  | ok pr2 =>
                      rw [h2, bind_ok_eq] at h
                      cases h
                      obtain ⟨hlast, hreads⟩ := ih pr1.2 pr2.1 pr2.2 (by rw [h2])
                      constructor
                      · rw [show dir :: (pr1.1 ++ pr2.1) = (dir :: pr1.1) ++ pr2.1 by simp,
                          List.getLast?_append, hlast]
                        rfl
                      · have hr1 := send_records_reads rs reads1 pr1.1 pr1.2 (by rw [h1])
                        rw [hr1, hreads, cons_replicate_acks]
                        congr 2
                        simp only [List.length_cons, List.map_cons, List.sum_cons]
                        omega
            · unfold wait_for_ack at h
              rw [if_neg hb] at h
              by_cases hn : b = 0x3F
              · rw [if_pos hn, bind_error_eq] at h; exact Except.noConfusion h
              · rw [if_neg hn, bind_error_eq] at h; exact Except.noConfusion h

/-- Witness for C9: the session-structure part applied to one telephone
directory with no records and input bytes [ACK, 0x55]. -/
theorem sender_ack_protocol_witness :
    ([Directory.get .telephoneDirectory, EndOfTransmission.get] : List Frame).getLast?
        = some EndOfTransmission.get
      ∧ ([0x23, 0x55] : List Nat) = List.replicate (1 + 0) 0x23 ++ [0x55] :=
  sender_ack_protocol.2.2 [(Directory.get .telephoneDirectory, [])] [0x23, 0x55]
    [Directory.get .telephoneDirectory, EndOfTransmission.get] [0x55] rfl

theorem textFramesOfChunks_kinds (chunks : List (List Char)) :
    ∀ (lastLine : Bool) (addr : Nat) (fs : List Frame) (a2 : Nat),
      textFramesOfChunks chunks lastLine addr = .ok (fs, a2) → ∀ f ∈ fs, f.kind = .text := by
  induction chunks with
  | nil =>
      intro lastLine addr fs a2 h f hf
      unfold textFramesOfChunks at h
      cases h
      simp at hf
  | cons chunk rest ih =>
      intro lastLine addr fs a2 h f hf
      unfold textFramesOfChunks at h
      cases he : encodeText chunk with
      | error e => rw [he, bind_error_eq] at h; exact Except.noConfusion h
      | ok cdata =>
          rw [he, bind_ok_eq] at h
          dsimp only at h
          cases hr : textFramesOfChunks rest lastLine
              (addr + (if lastLine then cdata else cdata ++ [13]).length) with
          | error e => rw [hr, bind_error_eq] at h; exact Except.noConfusion h
          | ok pr =>
              rw [hr, bind_ok_eq] at h
              cases h
              rcases List.mem_cons.mp hf with rfl | hm
              · rfl
              · exact ih lastLine _ pr.1 pr.2 (by rw [hr]) f hm

theorem processLines_kinds (lines : List (List Char)) :
    ∀ (addr : Nat) (fs : List Frame) (a2 : Nat),
      processLines lines addr = .ok (fs, a2) → ∀ f ∈ fs, f.kind = .text := by
  induction lines with
  | nil =>
      intro addr fs a2 h f hf
      unfold processLines at h
      cases h
      simp at hf
  | cons line rest ih =>
      intro addr fs a2 h f hf
      cases rest with
      | nil =>
          exact textFramesOfChunks_kinds _ true addr fs a2 h f hf
      | cons g gs =>
          unfold processLines at h
          cases h1 : textFramesOfChunks ((pyWrap 128 line).take 3) false addr with
          | error e => rw [h1, bind_error_eq] at h; exact Except.noConfusion h
          | ok pr1 =>
              rw [h1, bind_ok_eq] at h
              cases h2 : processLines (g :: gs) pr1.2 with
              | error e => rw [h2, bind_error_eq] at h; exact Except.noConfusion h
              | ok pr2 =>
                  rw [h2, bind_ok_eq] at h
                  cases h
                  rcases List.mem_append.mp hf with hm | hm
                  · exact textFramesOfChunks_kinds _ false addr pr1.1 pr1.2 (by rw [h1]) f hm
                  · exact ih pr1.2 pr2.1 pr2.2 (by rw [h2]) f hm

theorem fromTextAux_kinds (tx : List Char) (last : Bool) (addr : Nat) (fs : List Frame)
    (a2 : Nat) (h : fromTextAux tx last addr = .ok (fs, a2)) : ∀ f ∈ fs, f.kind = .text := by
  unfold fromTextAux at h
  by_cases hlen : (if last then tx else tx ++ ['\x1F']).length > 376
  · rw [if_pos hlen] at h; exact absurd h (by simp)
  · rw [if_neg hlen] at h
    exact processLines_kinds _ addr fs a2 h

theorem fromTextListGo_kinds (texts : List (List Char)) :
    ∀ (addr : Nat) (fs : List Frame),
      fromTextListGo texts addr = .ok fs → ∀ f ∈ fs, f.kind = .text := by
  induction texts with
  | nil =>
      intro addr fs h f hf
      unfold fromTextListGo at h
      cases h
      simp at hf
  | cons tx rest ih =>
      intro addr fs h f hf
      cases rest with
      | nil =>
          unfold fromTextListGo at h
          cases h1 : fromTextAux tx true addr with
          | error e => rw [h1] at h; exact Except.noConfusion h
          | ok pr =>
              rw [h1] at h
              cases h
              exact fromTextAux_kinds tx true addr pr.1 pr.2 (by rw [h1]) f hf
      | cons g gs =>
          unfold fromTextListGo at h
          cases h1 : fromTextAux tx false addr with
          | error e => rw [h1, bind_error_eq] at h; exact Except.noConfusion h
          | ok pr1 =>
              rw [h1, bind_ok_eq] at h
              cases h2 : fromTextListGo (g :: gs) pr1.2 with
              | error e => rw [h2, bind_error_eq] at h; exact Except.noConfusion h
              | ok fs2 =>
                  rw [h2, bind_ok_eq] at h
                  cases h
                  rcases List.mem_append.mp hf with hm | hm
                  · exact fromTextAux_kinds tx false addr pr1.1 pr1.2 (by rw [h1]) f hm
                  · exact ih pr1.2 fs2 (by rw [h2]) f hm

theorem from_text_list_kinds (texts : List (List Char)) (fs : List Frame)
    (h : from_text_list texts = .ok fs) : ∀ f ∈ fs, f.kind = .text := by
  unfold from_text_list at h
  by_cases hs : (texts.map List.length).sum > 376
  · rw [if_pos hs] at h; exact absurd h (by simp)
  · rw [if_neg hs] at h
    exact fromTextListGo_kinds texts 0 fs h

theorem from_text_kinds (tx : List Char) (fs : List Frame)
    (h : from_text tx = .ok fs) : ∀ f ∈ fs, f.kind = .text :=
  from_text_list_kinds [tx] fs h

theorem Date_from_values_kind (k : FrameKind) (y m d : Option Nat) :
    (Date.from_values k y m d).kind = k := rfl

theorem Time_from_time_kind (k : FrameKind) (t : PyTime) : (Time.from_time k t).kind = k := rfl

theorem startEndTime_frame_kind (a b : PyTime) :
    (StartEndTime.from_start_end_times a b).kind = .startEndTime := rfl

theorem illustration_frame_kind (n : Nat) : (Illustration.from_number n).kind = .illustration := rfl

/-- The frames a Schedule emits before its Color frame. -/
def schedulePre (s : Schedule) : List Frame :=
  [Date.from_date .date s.date]
    ++ (match s.start_time with
        | none => []
        | some st =>
            match s.end_time with
            | none => [Time.from_time .time st]
            | some et => [StartEndTime.from_start_end_times st et])
    ++ (match s.alarm_time with | none => [] | some t => [Time.from_time .alarm t])
    ++ (match s.illustration with | none => [] | some n => [Illustration.from_number n])

theorem schedule_pre_kinds (s : Schedule) :
    ∀ f ∈ schedulePre s, f.kind ≠ .color ∧ f.kind ≠ .text := by
  intro f hf
  unfold schedulePre at hf
  simp only [List.append_assoc, List.mem_append, List.mem_cons,
    List.not_mem_nil, or_false] at hf
  rcases hf with rfl | hf
  · exact ⟨by rw [show Date.from_date .date s.date = Date.from_values .date
        (some s.date.year) (some s.date.month) (some s.date.day) from rfl,
        Date_from_values_kind]; decide,
      by rw [show Date.from_date .date s.date = Date.from_values .date
        (some s.date.year) (some s.date.month) (some s.date.day) from rfl,
        Date_from_values_kind]; decide⟩
  rcases hf with hf | hf | hf
  · cases hst : s.start_time with
    | none => rw [hst] at hf; simp at hf
    | some st =>
        rw [hst] at hf
        cases het : s.end_time with
        | none =>
            rw [het] at hf
            simp only [List.mem_singleton] at hf
            subst hf
            exact ⟨by rw [Time_from_time_kind]; decide, by rw [Time_from_time_kind]; decide⟩
        | some et =>
            rw [het] at hf
            simp only [List.mem_singleton] at hf
            subst hf
            exact ⟨by rw [startEndTime_frame_kind]; decide,
              by rw [startEndTime_frame_kind]; decide⟩
  · cases hat : s.alarm_time with
    | none => rw [hat] at hf; simp at hf
    | some t =>
        rw [hat] at hf
        simp only [List.mem_singleton] at hf
        subst hf
        exact ⟨by rw [Time_from_time_kind]; decide, by rw [Time_from_time_kind]; decide⟩
  · cases hil : s.illustration with
    | none => rw [hil] at hf; simp at hf
    | some n =>
        rw [hil] at hf
        simp only [List.mem_singleton] at hf
        subst hf
        exact ⟨by rw [illustration_frame_kind]; decide, by rw [illustration_frame_kind]; decide⟩

/-- The concrete Schedule refuting C8 as stated: date 2020-11-01, a
description and the color green. -/
def c8Schedule : Schedule := ⟨⟨2020, 11, 1⟩, none, none, none, none, some ['x'], some .green⟩

/-- C8 counterexample: a Schedule with its color set emits the Date frame
first, not the Color frame. -/
theorem color_first_counterexample :
    (c8Schedule.to_frames).map (fun fs => fs.head?)
        = .ok (some (Date.from_date .date ⟨2020, 11, 1⟩))
      ∧ (Date.from_date .date ⟨2020, 11, 1⟩).kind ≠ .color := by
  constructor
  · rfl
  · decide

/-- C8 (amended): Telephone, BusinessCard, Memo and Expense emit the Color
frame first; Schedule emits it after the Date, time, alarm and illustration
frames and before the description Text frames; Reminder emits it last. -/
theorem color_position_amended :
    (∀ (t : Telephone) (c : Colors) (fs : List Frame), t.color = some c →
        t.to_frames = .ok fs → fs.head? = some (Color.from_color c))
      ∧ (∀ (b : BusinessCard) (c : Colors) (fs : List Frame), b.color = some c →
          b.to_frames = .ok fs → fs.head? = some (Color.from_color c))
      ∧ (∀ (m : Memo) (c : Colors) (fs : List Frame), m.color = some c →
          m.to_frames = .ok fs → fs.head? = some (Color.from_color c))
      ∧ (∀ (e : Expense) (c : Colors) (fs : List Frame), e.color = some c →
          e.to_frames = .ok fs → fs.head? = some (Color.from_color c))
      ∧ (∀ (s : Schedule) (c : Colors) (fs : List Frame), s.color = some c →
          s.to_frames = .ok fs →
            ∃ pre post, fs = pre ++ Color.from_color c :: post
              ∧ (∀ f ∈ pre, f.kind ≠ .color ∧ f.kind ≠ .text)
              ∧ (∀ f ∈ post, f.kind = .text))
      ∧ (∀ (r : Reminder) (c : Colors) (fs : List Frame), r.color = some c →
          r.to_frames = .ok fs → fs.getLast? = some (Color.from_color c)) := by
  refine ⟨?_, ?_, ?_, ?_, ?_, ?_⟩
  · intro t c fs hc h
    unfold Telephone.to_frames at h
    dsimp only at h
    cases h1 : from_text_list (raw_list_to_text_list
        [some t.name, t.number, t.address, t.free1, t.free2, t.free3, t.free4, t.free5, t.free6]) with
    | error e => rw [h1, bind_error_eq] at h; exact Except.noConfusion h
    | ok tfs =>
        rw [h1, bind_ok_eq] at h
        rw [hc] at h
        cases h
        rfl
  · intro b c fs hc h
    unfold BusinessCard.to_frames at h
    dsimp only at h
    cases h1 : from_text_list (raw_list_to_text_list
        [some b.employer, some b.name, b.telephone_number, b.telex_number, b.fax_number,
          b.position, b.department, b.po_box, b.address, b.memo]) with
    | error e => rw [h1, bind_error_eq] at h; exact Except.noConfusion h
    | ok tfs =>
        rw [h1, bind_ok_eq] at h
        rw [hc] at h
        cases h
        rfl
  · intro m c fs hc h
    unfold Memo.to_frames at h
    cases h1 : from_text_list [m.text] with
    | error e => rw [h1, bind_error_eq] at h; exact Except.noConfusion h
    | ok tfs =>
        rw [h1, bind_ok_eq] at h
        rw [hc] at h
        cases h
        rfl
  · intro e c fs hc h
    unfold Expense.to_frames at h
    dsimp only at h
    cases h1 : from_text_list [natDigits e.date.year ++ ' ' :: natDigits e.date.month
        ++ ' ' :: natDigits e.date.day, e.amount, e.payment_type.getD [],
        e.expense_type.getD [], e.rcpt.getD [], e.bus.getD [], e.description.getD []] with
    | error er => rw [h1, bind_error_eq] at h; exact Except.noConfusion h
    | ok tfs =>
        rw [h1, bind_ok_eq] at h
        rw [hc] at h
        cases h
        rfl
  · intro s c fs hc h
    unfold Schedule.to_frames at h
    dsimp only at h
    cases hd : s.description with
    | none =>
        rw [hd] at h
        dsimp only at h
        rw [pure_eq_ok, bind_ok_eq] at h
        rw [hc] at h
        cases h
        refine ⟨schedulePre s, [], by simp [schedulePre], schedule_pre_kinds s, by simp⟩
    | some d =>
        rw [hd] at h
        dsimp only at h
        cases h1 : from_text d with
        | error e => rw [h1, bind_error_eq] at h; exact Except.noConfusion h
        | ok tfs =>
            rw [h1, bind_ok_eq] at h
            rw [hc] at h
            cases h
            exact ⟨schedulePre s, tfs, by simp [schedulePre], schedule_pre_kinds s,
              fun f hf => from_text_kinds d tfs h1 f hf⟩
  · intro r c fs hc h
    unfold Reminder.to_frames at h
    cases h1 : from_text r.description with
    | error e => rw [h1, bind_error_eq] at h; exact Except.noConfusion h
    | ok tfs =>
        rw [h1, bind_ok_eq] at h
        rw [hc] at h
        cases h
        dsimp only
        exact List.getLast?_concat _

/-- Witness for C8 (amended): the Telephone part applied to a concrete
green telephone record, and the Reminder part applied to a concrete
reminder. -/
theorem color_position_amended_witness :
    (Color.from_color .green
        :: (match CDD.from_text_list (raw_list_to_text_list
            [some ['a'], none, none, none, none, none, none, none, none]) with
          | .ok tfs => tfs
          | .error _ => [])).head? = some (Color.from_color .green) := by
  refine color_position_amended.1 ⟨['a'], none, none, none, none, none, none, none, none,
    some .green⟩ .green _ rfl ?_
  rfl

/-- A bare Text frame carrying the given data (address 0, type 0x80), as
used to state the text-accumulation properties. -/
def textFrameOfData (d : List Nat) : Frame :=
  ⟨.text, d.length, 0x80, 0, d, calculate_checksum d.length 0x80 0 d⟩

theorem scanTextColor_texts {ds : List (List Nat)} {ts : List (List Char)}
    (h : List.Forall₂ (fun d t => decodeText d = .ok t) ds ts) :
    ∀ (text : PyStr) (color : Option Colors),
      scanTextColor (ds.map textFrameOfData) text color = .ok (text ++ ts.flatten, color) := by
  induction h with
  | nil => intro text color; simp [scanTextColor]
  | @cons a b la lb hab htail ih =>
      intro text color
      simp only [List.map_cons, scanTextColor, textFrameOfData]
      rw [if_pos trivial]
      show (decodeText a >>= fun t => scanTextColor (la.map textFrameOfData) (text ++ t) color) = _
      rw [hab, bind_ok_eq, ih (text ++ b) color]
      simp

theorem reminderScan_texts {ds : List (List Nat)} {ts : List (List Char)}
    (h : List.Forall₂ (fun d t => decodeText d = .ok t) ds ts) :
    ∀ (color : Option Colors) (month day : Option Nat) (at_ : Option PyTime) (desc : PyStr),
      reminderScan (ds.map textFrameOfData) color month day at_ desc
        = .ok (color, month, day, at_, ts.getLastD desc) := by
  induction h with
  | nil => intro color month day at_ desc; simp [reminderScan]
  | @cons a b la lb hab htail ih =>
      intro color month day at_ desc
      simp only [List.map_cons, reminderScan, textFrameOfData]
      rw [if_pos trivial]
      show (decodeText a >>= fun t => reminderScan (la.map textFrameOfData) color month day at_ t) = _
      rw [hab, bind_ok_eq, ih color month day at_ b]
      rw [List.getLastD_cons]

theorem toDoScan_texts {ds : List (List Nat)} {ts : List (List Char)}
    (h : List.Forall₂ (fun d t => decodeText d = .ok t) ds ts) :
    ∀ (dd : Option PyDate) (dt al : Option PyTime) (cd : Option PyDate) (ct : Option PyTime)
      (desc : PyStr) (pr : Option Priorities),
      toDoScan (ds.map textFrameOfData) dd dt al cd ct desc pr
        = .ok (dd, dt, al, cd, ct, ts.getLastD desc, pr) := by
  induction h with
  | nil => intro dd dt al cd ct desc pr; simp [toDoScan]
  | @cons a b la lb hab htail ih =>
      intro dd dt al cd ct desc pr
      simp only [List.map_cons, toDoScan, textFrameOfData]
      rw [if_pos trivial]
      show (decodeText a >>= fun t => toDoScan (la.map textFrameOfData) dd dt al cd ct t pr) = _
      rw [hab, bind_ok_eq, ih dd dt al cd ct b pr]
      rw [List.getLastD_cons]

/-- C7 counterexample: Reminder.from_frames keeps only the last Text frame's
text — two Text frames decoding to "ab" and "cd" yield the description
"cd", not the concatenation "abcd". -/
theorem text_accumulation_counterexample :
    Reminder.from_frames [textFrameOfData [97, 98], textFrameOfData [99, 100]]
        = .ok ⟨none, none, none, ['c', 'd'], none⟩
      ∧ (['c', 'd'] : List Char) ≠ ['a', 'b'] ++ ['c', 'd'] := by
  refine ⟨rfl, by decide⟩

/-- Fitting conditions under which one field survives the Text frame codec:
it fits in a single wrap chunk even with the trailing unit separator (at
most 127 characters), contains no newline and no unit separator of its own,
and every character is in the device table. -/
def goodText (s : PyStr) : Prop :=
  s.length ≤ 127 ∧ '\n' ∉ s ∧ '\x1F' ∉ s ∧ ∀ c ∈ s, encodable c

instance (s : PyStr) : Decidable (goodText s) := by
  unfold goodText
  infer_instance

/-- Constraint on an optional record field: absent, or non-empty and good
(an empty present field would decode back to an absent one). -/
def goodOptField : Option PyStr → Prop
  | none => True
  | some s => s ≠ [] ∧ goodText s

instance : (o : Option PyStr) → Decidable (goodOptField o)
  | none => .isTrue trivial
  | some s => inferInstanceAs (Decidable (s ≠ [] ∧ goodText s))

/-- The optional fields of a Telephone record, in the order `to_frames`
serializes them after the name. -/
def Telephone.optFields (t : Telephone) : List (Option PyStr) :=
  [t.number, t.address, t.free1, t.free2, t.free3, t.free4, t.free5, t.free6]

/-- Conditions under which a Telephone record survives the round trip:
non-empty good name, absent or non-empty good optional fields, and a total
serialized text within `Text.MAX_LENGTH = 376`. -/
def Telephone.good (t : Telephone) : Prop :=
  t.name ≠ [] ∧ goodText t.name ∧ (∀ o ∈ t.optFields, goodOptField o)
    ∧ ((raw_list_to_text_list (some t.name :: t.optFields)).map List.length).sum ≤ 376

instance (t : Telephone) : Decidable t.good := by
  unfold Telephone.good
  infer_instance

theorem splitOnChar_single (sep : Char) (s : List Char) (h : sep ∉ s) :
    splitOnChar sep s = [s] := by
  induction s with
  | nil => rfl
  | cons c rest ih =>
      have hc2 : c ≠ sep := fun he => h (by rw [he]; exact List.mem_cons_self sep rest)
      have hc : (c == sep) = false := by simp [hc2]
      have hrest : sep ∉ rest := fun hm => h (List.mem_cons_of_mem c hm)
      simp only [splitOnChar, hc, Bool.false_eq_true, if_false, ih hrest]

theorem splitOnChar_append_sep (sep : Char) (p t : List Char) (hp : sep ∉ p) :
    splitOnChar sep (p ++ sep :: t) = p :: splitOnChar sep t := by
  induction p with
  | nil => simp only [List.nil_append, splitOnChar, beq_self_eq_true, if_true]
  | cons c p2 ih =>
      have hc2 : c ≠ sep := fun he => hp (by rw [he]; exact List.mem_cons_self sep p2)
      have hc : (c == sep) = false := by simp [hc2]
      have hp2 : sep ∉ p2 := fun hm => hp (List.mem_cons_of_mem c hm)
      rw [List.cons_append]
      simp only [splitOnChar, hc, Bool.false_eq_true, if_false, ih hp2]

theorem splitOnChar_joinSep_inv (sep : Char) :
    ∀ texts : List (List Char), texts ≠ [] → (∀ tx ∈ texts, sep ∉ tx) →
      splitOnChar sep (joinSep sep texts) = texts := by
  intro texts
  induction texts with
  | nil => intro h _; exact absurd rfl h
  | cons tx rest ih =>
      intro _ hsep
      cases rest with
      | nil => exact splitOnChar_single sep tx (hsep tx (List.mem_cons_self tx []))
      | cons g gs =>
          rw [joinSep_cons_cons,
            splitOnChar_append_sep sep tx _ (hsep tx (List.mem_cons_self tx (g :: gs))),
            ih (by simp) (fun u hu => hsep u (List.mem_cons_of_mem tx hu))]

theorem scanTextColor_append_ok (fs1 fs2 : List Frame) :
    ∀ t c t2 c2, scanTextColor fs1 t c = .ok (t2, c2) →
      scanTextColor (fs1 ++ fs2) t c = scanTextColor fs2 t2 c2 := by
  induction fs1 with
  | nil =>
      intro t c t2 c2 h
      simp only [scanTextColor, Except.ok.injEq, Prod.mk.injEq] at h
      obtain ⟨rfl, rfl⟩ := h
      rfl
  | cons f rest ih =>
      intro t c t2 c2 h
      rw [List.cons_append]
      simp only [scanTextColor] at h ⊢
      by_cases hk : f.kind = .color
      · rw [if_pos hk] at h ⊢
        cases hc : colorOfFrame f with
        | error e => rw [hc, bind_error_eq] at h; exact Except.noConfusion h
        | ok cc =>
            rw [hc, bind_ok_eq] at h
            rw [bind_ok_eq]
            exact ih t (some cc) t2 c2 h
      · rw [if_neg hk] at h ⊢
        by_cases hk2 : f.kind = .text
        · rw [if_pos hk2] at h ⊢
          cases hd : decodeText f.data with
          | error e => rw [hd, bind_error_eq] at h; exact Except.noConfusion h
          | ok tt =>
              rw [hd, bind_ok_eq] at h
              rw [bind_ok_eq]
              exact ih (t ++ tt) c t2 c2 h
        · rw [if_neg hk2] at h
          exact Except.noConfusion h

set_option maxRecDepth 8000 in
theorem fromText_single_line (line : List Char) (addr : Nat)
    (hlen : line.length ≤ 128) (hnl : '\n' ∉ line)
    (henc : ∀ c ∈ line, encodable c) (hne : line ≠ []) :
    ∃ f : Frame, processLines (splitOnChar '\n' line) addr = .ok ([f], addr + f.data.length)
      ∧ ∀ t c, scanTextColor [f] t c = .ok (t ++ line, c) := by
  rw [splitOnChar_single '\n' line hnl]
  obtain ⟨ns, he, hd⟩ := encodeText_roundtrip line henc
  refine ⟨mkTextFrame addr ns, ?_, ?_⟩
  · show textFramesOfChunks ((pyWrap 128 line).take 3) true addr = _
    rw [pyWrap_short 128 line hlen, if_neg hne]
    show textFramesOfChunks [line] true addr = _
    simp only [textFramesOfChunks]
    rw [he, bind_ok_eq]
    rfl
  · intro t c
    simp only [scanTextColor, mkTextFrame]
    rw [if_pos trivial]
    rw [hd, bind_ok_eq]
    rfl

set_option maxRecDepth 8000 in
theorem fromTextAux_good (tx : List Char) (last : Bool) (addr : Nat)
    (hg : goodText tx) (hne : last = true → tx ≠ []) :
    ∃ f : Frame, fromTextAux tx last addr = .ok ([f], addr + f.data.length)
      ∧ ∀ t c, scanTextColor [f] t c
          = .ok (t ++ (if last then tx else tx ++ ['\x1F']), c) := by
  obtain ⟨hlen, hnl, hsep, henc⟩ := hg
  cases last with
  | true =>
      obtain ⟨f, hp, hs⟩ := fromText_single_line tx addr (by omega) hnl henc (hne rfl)
      refine ⟨f, ?_, ?_⟩
      · show (if tx.length > 376
            then (Except.error "Text too long" : Except String (List Frame × Nat))
            else processLines (splitOnChar '\n' tx) addr) = _
        rw [if_neg (by omega), hp]
      · intro t c
        simpa using hs t c
  | false =>
      have hne2 : tx ++ ['\x1F'] ≠ [] := by simp
      have hlen2 : (tx ++ ['\x1F']).length ≤ 128 := by
        simp only [List.length_append, List.length_cons, List.length_nil]
        omega
      have hnl2 : '\n' ∉ tx ++ ['\x1F'] := by
        intro hm
        rcases List.mem_append.mp hm with h1 | h2
        · exact hnl h1
        · exact absurd (List.mem_singleton.mp h2) (by decide)
      have henc2 : ∀ c ∈ tx ++ ['\x1F'], encodable c := by
        intro c hc
        rcases List.mem_append.mp hc with h1 | h2
        · exact henc c h1
        · rw [List.mem_singleton.mp h2]; decide
      obtain ⟨f, hp, hs⟩ := fromText_single_line (tx ++ ['\x1F']) addr hlen2 hnl2 henc2 hne2
      refine ⟨f, ?_, ?_⟩
      · show (if (tx ++ ['\x1F']).length > 376
            then (Except.error "Text too long" : Except String (List Frame × Nat))
            else processLines (splitOnChar '\n' (tx ++ ['\x1F'])) addr) = _
        rw [if_neg (by
          simp only [List.length_append, List.length_cons, List.length_nil]
          omega), hp]
      · intro t c
        simpa using hs t c

theorem getLast?_cons_cons_eq {α : Type} (a b : α) (l : List α) :
    (a :: b :: l).getLast? = (b :: l).getLast? := by
  simp [List.getLast?_cons_cons]

theorem fromTextListGo_good :
    ∀ (texts : List (List Char)) (addr : Nat),
      (∀ tx ∈ texts, goodText tx) →
      (∀ lt, texts.getLast? = some lt → lt ≠ []) →
      ∃ fs, fromTextListGo texts addr = .ok fs
        ∧ ∀ t c, scanTextColor fs t c = .ok (t ++ joinSep '\x1F' texts, c) := by
  intro texts
  induction texts with
  | nil =>
      intro addr _ _
      refine ⟨[], rfl, fun t c => ?_⟩
      show Except.ok (t, c) = Except.ok (t ++ joinSep '\x1F' [], c)
      rw [show joinSep '\x1F' ([] : List (List Char)) = [] from rfl, List.append_nil]
  | cons tx rest ih =>
      intro addr hgood hlast
      cases rest with
      | nil =>
          have hne : tx ≠ [] := hlast tx (by simp)
          obtain ⟨f, hp, hs⟩ := fromTextAux_good tx true addr
            (hgood tx (List.mem_cons_self tx [])) (fun _ => hne)
          refine ⟨[f], ?_, ?_⟩
          · show (fromTextAux tx true addr).map (fun pr => pr.1) = .ok [f]
            rw [hp]
            rfl
          · intro t c
            simpa using hs t c
      | cons g gs =>
          obtain ⟨f, hp, hs⟩ := fromTextAux_good tx false addr
            (hgood tx (List.mem_cons_self tx (g :: gs)))
            (fun h => absurd h (by decide))
          obtain ⟨fs2, hp2, hs2⟩ := ih (addr + f.data.length)
            (fun u hu => hgood u (List.mem_cons_of_mem tx hu))
            (fun lt hl => hlast lt (by rw [getLast?_cons_cons_eq]; exact hl))
          refine ⟨f :: fs2, ?_, ?_⟩
          · show (do
                let pr1 ← fromTextAux tx false addr
                let fs3 ← fromTextListGo (g :: gs) pr1.2
                Except.ok (pr1.1 ++ fs3)) = Except.ok (f :: fs2)
            rw [hp, bind_ok_eq]
            dsimp only
            rw [hp2, bind_ok_eq]
            rfl
          · intro t c
            rw [show (f :: fs2) = [f] ++ fs2 from rfl,
              scanTextColor_append_ok [f] fs2 t c (t ++ (tx ++ ['\x1F'])) c
                (by simpa using hs t c),
              hs2 (t ++ (tx ++ ['\x1F'])) c, joinSep_cons_cons]
            simp [List.append_assoc]

theorem from_text_list_good (texts : List (List Char))
    (hgood : ∀ tx ∈ texts, goodText tx)
    (hlast : ∀ lt, texts.getLast? = some lt → lt ≠ [])
    (hsum : (texts.map List.length).sum ≤ 376) :
    ∃ fs, from_text_list texts = .ok fs
      ∧ ∀ t c, scanTextColor fs t c = .ok (t ++ joinSep '\x1F' texts, c) := by
  obtain ⟨fs, hp, hs⟩ := fromTextListGo_good texts 0 hgood hlast
  refine ⟨fs, ?_, hs⟩
  unfold from_text_list
  rw [if_neg (by omega), hp]

theorem rawToTextGo_acc (ys : List (Option PyStr)) :
    ∀ d acc, rawToTextGo ys d acc = rawToTextGo ys d [] ++ acc := by
  induction ys with
  | nil => intro d acc; rfl
  | cons o rest ih =>
      intro d acc
      cases o with
      | none =>
          cases d with
          | true =>
              show rawToTextGo rest true ([] :: acc) = rawToTextGo rest true ([] :: []) ++ acc
              rw [ih true ([] :: acc), ih true ([] :: []), List.append_assoc]
              rfl
          | false =>
              show rawToTextGo rest false acc = rawToTextGo rest false [] ++ acc
              exact ih false acc
      | some e =>
          show rawToTextGo rest true (e :: acc) = rawToTextGo rest true (e :: []) ++ acc
          rw [ih true (e :: acc), ih true (e :: []), List.append_assoc]
          rfl

theorem rawToTextGo_true (ys : List (Option PyStr)) :
    rawToTextGo ys true [] = (ys.map (fun o => o.getD [])).reverse := by
  induction ys with
  | nil => rfl
  | cons o rest ih =>
      cases o with
      | none =>
          show rawToTextGo rest true ([] :: []) = _
          rw [rawToTextGo_acc rest true ([] :: []), ih]
          simp
      | some e =>
          show rawToTextGo rest true (e :: []) = _
          rw [rawToTextGo_acc rest true (e :: []), ih]
          simp

theorem rawToTextGo_append_some (x : PyStr) (ys : List (Option PyStr)) :
    ∀ d acc, rawToTextGo (ys ++ [some x]) d acc = x :: rawToTextGo ys d acc := by
  induction ys with
  | nil => intro d acc; rfl
  | cons o ys2 ih =>
      intro d acc
      cases o with
      | none =>
          cases d with
          | true =>
              show rawToTextGo (ys2 ++ [some x]) true ([] :: acc)
                  = x :: rawToTextGo ys2 true ([] :: acc)
              exact ih true ([] :: acc)
          | false =>
              show rawToTextGo (ys2 ++ [some x]) false acc = x :: rawToTextGo ys2 false acc
              exact ih false acc
      | some e =>
          show rawToTextGo (ys2 ++ [some x]) true (e :: acc)
              = x :: rawToTextGo ys2 true (e :: acc)
          exact ih true (e :: acc)

theorem mem_rawToTextGo (ys : List (Option PyStr)) :
    ∀ d acc tx, tx ∈ rawToTextGo ys d acc → tx ∈ acc ∨ ∃ o ∈ ys, tx = o.getD [] := by
  induction ys with
  | nil => intro d acc tx h; exact .inl h
  | cons o rest ih =>
      intro d acc tx h
      cases o with
      | none =>
          cases d with
          | true =>
              rcases ih true ([] :: acc) tx h with hin | ⟨o2, ho2, he⟩
              · rcases List.mem_cons.mp hin with rfl | hin2
                · exact .inr ⟨none, by simp, rfl⟩
                · exact .inl hin2
              · exact .inr ⟨o2, List.mem_cons_of_mem none ho2, he⟩
          | false =>
              rcases ih false acc tx h with hin | ⟨o2, ho2, he⟩
              · exact .inl hin
              · exact .inr ⟨o2, List.mem_cons_of_mem none ho2, he⟩
      | some e =>
          rcases ih true (e :: acc) tx h with hin | ⟨o2, ho2, he⟩
          · rcases List.mem_cons.mp hin with rfl | hin2
            · exact .inr ⟨some tx, by simp, rfl⟩
            · exact .inl hin2
          · exact .inr ⟨o2, List.mem_cons_of_mem (some e) ho2, he⟩

theorem rawToTextGo_false_getLast (ys : List (Option PyStr))
    (h : ∀ s, some s ∈ ys → s ≠ []) :
    ∀ lt, (rawToTextGo ys false []).getLast? = some lt → lt ≠ [] := by
  induction ys with
  | nil => intro lt hl; exact absurd hl (by simp [rawToTextGo])
  | cons o rest ih =>
      cases o with
      | none =>
          intro lt hl
          exact ih (fun s hs => h s (List.mem_cons_of_mem none hs)) lt hl
      | some e =>
          intro lt hl
          rw [show rawToTextGo (some e :: rest) false []
              = rawToTextGo rest true [] ++ [e] from rawToTextGo_acc rest true (e :: [])] at hl
          rw [List.getLast?_append] at hl
          have hl2 : some e = some lt := hl
          have he2 : e = lt := Option.some.inj hl2
          rw [← he2]
          exact h e (by simp)

theorem map_getD_toOpt (ys : List (Option PyStr)) (h : ∀ s, some s ∈ ys → s ≠ []) :
    (ys.map (fun o => o.getD [])).map (fun v => if v = [] then none else some v) = ys := by
  induction ys with
  | nil => rfl
  | cons o rest ih =>
      simp only [List.map_cons]
      rw [ih (fun s hs => h s (List.mem_cons_of_mem o hs))]
      cases o with
      | none => simp
      | some s =>
          have hs2 : s ≠ [] := h s (by simp)
          simp [hs2]

theorem rawToTextGo_false_toOpt (ys : List (Option PyStr))
    (h : ∀ s, some s ∈ ys → s ≠ []) :
    ∃ k, (rawToTextGo ys false []).map (fun v => if v = [] then none else some v)
        ++ List.replicate k none = ys.reverse := by
  induction ys with
  | nil => exact ⟨0, rfl⟩
  | cons o rest ih =>
      cases o with
      | none =>
          obtain ⟨k, hk⟩ := ih (fun s hs => h s (List.mem_cons_of_mem none hs))
          refine ⟨k + 1, ?_⟩
          rw [List.reverse_cons,
            show rawToTextGo (none :: rest) false [] = rawToTextGo rest false [] from rfl,
            show List.replicate (k + 1) (none : Option PyStr)
              = List.replicate k none ++ [none] from List.replicate_succ' k none,
            ← List.append_assoc, hk]
      | some e =>
          refine ⟨0, ?_⟩
          rw [List.reverse_cons,
            show rawToTextGo (some e :: rest) false []
              = rawToTextGo rest true (e :: []) from rfl,
            show List.replicate 0 (none : Option PyStr) = [] from rfl,
            List.append_nil, rawToTextGo_acc rest true (e :: []), rawToTextGo_true rest,
            List.map_append, List.map_reverse,
            map_getD_toOpt rest (fun s hs => h s (List.mem_cons_of_mem (some e) hs))]
          have he2 : e ≠ [] := h e (by simp)
          simp [he2]

theorem getD_replicate_none (k i : Nat) :
    (List.replicate k (none : Option PyStr)).getD i none = none := by
  induction k generalizing i with
  | zero => cases i <;> rfl
  | succ k ih =>
      cases i with
      | zero => rfl
      | succ j => exact ih j

theorem getD_append_replicate_none (p : List (Option PyStr)) (k i : Nat) :
    (p ++ List.replicate k none).getD i none = p.getD i none := by
  induction p generalizing i with
  | nil =>
      rw [List.nil_append]
      cases i <;> exact getD_replicate_none k _
  | cons a p2 ih =>
      cases i with
      | zero => rfl
      | succ j => exact ih j

theorem scanTextColor_color_cons (c : Colors) (fs : List Frame) (t : PyStr)
    (c0 : Option Colors) :
    scanTextColor (Color.from_color c :: fs) t c0 = scanTextColor fs t (some c) := by
  cases c <;> rfl

theorem telephone_roundtrip_good (t : Telephone) (hg : t.good) :
    ∃ fs, t.to_frames = .ok fs ∧ Telephone.from_frames fs = .ok t := by
  obtain ⟨hname, hgname, hopt, hsum⟩ := hg
  have hsome : ∀ s, some s ∈ t.optFields.reverse → s ≠ [] := by
    intro s hs
    exact (hopt (some s) (List.mem_reverse.mp hs)).1
  have htail_def : raw_list_to_text_list (some t.name :: t.optFields)
      = t.name :: rawToTextGo t.optFields.reverse false [] := by
    unfold raw_list_to_text_list
    rw [List.reverse_cons]
    exact rawToTextGo_append_some t.name t.optFields.reverse false []
  have hgoodnil : goodText [] := ⟨by simp, by simp, by simp, by simp⟩
  have hgtexts : ∀ tx ∈ raw_list_to_text_list (some t.name :: t.optFields), goodText tx := by
    rw [htail_def]
    intro tx hm
    rcases List.mem_cons.mp hm with rfl | hm2
    · exact hgname
    · rcases mem_rawToTextGo t.optFields.reverse false [] tx hm2 with hin | ⟨o, ho, rfl⟩
      · exact absurd hin (List.not_mem_nil tx)
      · cases o with
        | none => exact hgoodnil
        | some s => exact (hopt (some s) (List.mem_reverse.mp ho)).2
  have hlast : ∀ lt, (raw_list_to_text_list (some t.name :: t.optFields)).getLast? = some lt
      → lt ≠ [] := by
    rw [htail_def]
    intro lt hl
    cases htl : rawToTextGo t.optFields.reverse false [] with
    | nil =>
        rw [htl] at hl
        have he2 : t.name = lt := by simpa using hl
        rw [← he2]
        exact hname
    | cons u us =>
        rw [htl, getLast?_cons_cons_eq, ← htl] at hl
        exact rawToTextGo_false_getLast t.optFields.reverse hsome lt hl
  obtain ⟨fs, hfl, hscan⟩ := from_text_list_good
    (raw_list_to_text_list (some t.name :: t.optFields)) hgtexts hlast hsum
  refine ⟨(match t.color with | some c => [Color.from_color c] | none => []) ++ fs, ?_, ?_⟩
  · have hto : Telephone.to_frames t
        = (from_text_list (raw_list_to_text_list (some t.name :: t.optFields)) >>= fun tfs =>
          Except.ok ((match t.color with
            | some c => [Color.from_color c] | none => []) ++ tfs)) := rfl
    rw [hto, hfl, bind_ok_eq]
  · have hscan2 : scanTextColor
        ((match t.color with | some c => [Color.from_color c] | none => []) ++ fs) [] none
        = .ok (joinSep '\x1F' (raw_list_to_text_list (some t.name :: t.optFields)),
            t.color) := by
      cases t.color with
      | none =>
          rw [show (match (none : Option Colors) with
              | some c => [Color.from_color c] | none => ([] : List Frame)) = [] from rfl,
            List.nil_append]
          simpa using hscan [] none
      | some c =>
          rw [show (match (some c : Option Colors) with
              | some c2 => [Color.from_color c2]
              | none => ([] : List Frame)) = [Color.from_color c] from rfl,
            List.singleton_append, scanTextColor_color_cons]
          simpa using hscan [] (some c)
    have hff : Telephone.from_frames
        ((match t.color with | some c => [Color.from_color c] | none => []) ++ fs)
        = (scanTextColor
            ((match t.color with | some c => [Color.from_color c] | none => []) ++ fs)
            [] none >>= fun pr =>
          (match fieldsOfText pr.1 with
            | [] => Except.error "Missing name text frame"
            | f0 :: rest =>
                match f0 with
                | none => Except.error "Missing name text field"
                | some name =>
                    Except.ok ⟨name, rest.getD 0 none, rest.getD 1 none, rest.getD 2 none,
                      rest.getD 3 none, rest.getD 4 none, rest.getD 5 none,
                      rest.getD 6 none, rest.getD 7 none, pr.2⟩)) := rfl
    rw [hff, hscan2, bind_ok_eq]
    have hfieldsJ : fieldsOfText
        (joinSep '\x1F' (raw_list_to_text_list (some t.name :: t.optFields)))
        = some t.name :: (rawToTextGo t.optFields.reverse false []).map
            (fun v => if v = [] then none else some v) := by
      unfold fieldsOfText
      rw [splitOnChar_joinSep_inv '\x1F' _ (by rw [htail_def]; simp)
          (fun tx hm => (hgtexts tx hm).2.2.1),
        htail_def, List.map_cons, if_neg hname]
    dsimp only
    rw [hfieldsJ]
    obtain ⟨k, hk⟩ := rawToTextGo_false_toOpt t.optFields.reverse hsome
    rw [List.reverse_reverse] at hk
    have hgd : ∀ i, ((rawToTextGo t.optFields.reverse false []).map
        (fun v => if v = [] then none else some v)).getD i none
        = t.optFields.getD i none := by
      intro i
      conv_rhs => rw [← hk]
      exact (getD_append_replicate_none _ k i).symm
    show Except.ok (⟨t.name,
        ((rawToTextGo t.optFields.reverse false []).map
          (fun v => if v = [] then none else some v)).getD 0 none,
        ((rawToTextGo t.optFields.reverse false []).map
          (fun v => if v = [] then none else some v)).getD 1 none,
        ((rawToTextGo t.optFields.reverse false []).map
          (fun v => if v = [] then none else some v)).getD 2 none,
        ((rawToTextGo t.optFields.reverse false []).map
          (fun v => if v = [] then none else some v)).getD 3 none,
        ((rawToTextGo t.optFields.reverse false []).map
          (fun v => if v = [] then none else some v)).getD 4 none,
        ((rawToTextGo t.optFields.reverse false []).map
          (fun v => if v = [] then none else some v)).getD 5 none,
        ((rawToTextGo t.optFields.reverse false []).map
          (fun v => if v = [] then none else some v)).getD 6 none,
        ((rawToTextGo t.optFields.reverse false []).map
          (fun v => if v = [] then none else some v)).getD 7 none,
        t.color⟩ : Telephone) = Except.ok t
    rw [hgd 0, hgd 1, hgd 2, hgd 3, hgd 4, hgd 5, hgd 6, hgd 7]
    rfl

/-- The S2 Telephone record of the spec. -/
def s2Telephone : Telephone :=
  ⟨['J', 'o', 'h', 'n', ' ', 'D', 'o', 'e'],
   some ['1', '2', '3', '-', '4', '5', '6'],
   some ['N', 'o', 'w', 'h', 'e', 'r', 'e', ' ', 'S', 't'],
   none, none, none, none, none, none, some .green⟩

/-- The S2 record's field texts joined by the unit separator. -/
def s2Text : PyStr :=
  ['J', 'o', 'h', 'n', ' ', 'D', 'o', 'e', '\x1F',
   '1', '2', '3', '-', '4', '5', '6', '\x1F',
   'N', 'o', 'w', 'h', 'e', 'r', 'e', ' ', 'S', 't']

/-- The Text frames `s2Telephone.to_frames` actually emits after the Color
frame: one frame per field, the first two ending in the separator code 10. -/
def s2TextFrames : List Frame :=
  [⟨.text, 9, 0x80, 0, [74, 111, 104, 110, 32, 68, 111, 101, 10], 166⟩,
   ⟨.text, 8, 0x80, 9, [49, 50, 51, 45, 52, 53, 54, 10], 3⟩,
   ⟨.text, 10, 0x80, 17, [78, 111, 119, 104, 101, 114, 101, 32, 83, 116], 166⟩]

/-- A Reminder breaking the C1 round trip: its only invariant (a month
requires a day) holds, yet a 129-character description wraps into two Text
frames and `from_frames` keeps only the last one. -/
def c1Reminder : Reminder := ⟨none, none, none, List.replicate 129 'a', none⟩

set_option maxRecDepth 40000 in
/-- C1: the universal record round-trip claim fails.  `c1Reminder` satisfies
the stated `__post_init__` invariant, but serializing and re-parsing it
returns a record whose description is just the final wrap chunk, a single
character, not the original 129-character description. -/
theorem record_roundtrip_counterexample :
    c1Reminder.post_init_ok
    ∧ (c1Reminder.to_frames >>= Reminder.from_frames)
        = .ok ⟨none, none, none, ['a'], none⟩
    ∧ (⟨none, none, none, ['a'], none⟩ : Reminder) ≠ c1Reminder := by
  refine ⟨fun h => absurd rfl h, ?_, ?_⟩
  · rfl
  · decide

set_option maxRecDepth 40000 in
/-- C1 (amended): a Telephone record whose fields fit the codec (non-empty
name, absent or non-empty optional fields, each field at most 127 encodable
characters with no newline and no unit separator, total within 376)
round-trips through `to_frames`/`from_frames` unchanged; and the S2
instance serializes to a Color (green) frame followed by THREE Text frames
(one per field, unit separators closing the first two), whose concatenated
decoded text is `"John Doe\x1F123-456\x1FNowhere St"`, and round-trips to
an equal record. -/
theorem record_roundtrip_amended :
    (∀ t : Telephone, t.good →
      ∃ fs, t.to_frames = .ok fs ∧ Telephone.from_frames fs = .ok t)
    ∧ s2Telephone.to_frames = .ok (Color.from_color .green :: s2TextFrames)
    ∧ (∀ f ∈ s2TextFrames, f.kind = .text)
    ∧ decodeConcat s2TextFrames = .ok s2Text
    ∧ (s2Telephone.to_frames >>= Telephone.from_frames) = .ok s2Telephone := by
  refine ⟨telephone_roundtrip_good, ?_, ?_, ?_, ?_⟩
  · rfl
  · decide
  · rfl
  · rfl

set_option maxRecDepth 40000 in
/-- Witness for C1: the amended round trip applied to the concrete S2
record, whose fitting conditions are discharged by computation. -/
theorem record_roundtrip_amended_witness :
    s2Telephone.good ∧ ∃ fs, s2Telephone.to_frames = .ok fs
      ∧ Telephone.from_frames fs = .ok s2Telephone :=
  ⟨by decide, record_roundtrip_amended.1 s2Telephone (by decide)⟩

/-- Decoding distributes over concatenating the frames' data bytes. -/
theorem decodeText_flatten {ds : List (List Nat)} {ts : List (List Char)}
    (h : List.Forall₂ (fun d t => decodeText d = .ok t) ds ts) :
    decodeText ds.flatten = .ok ts.flatten := by
  induction h with
  | nil => rfl
  | @cons a b la lb hab htail ih =>
      rw [List.flatten_cons, List.flatten_cons]
      exact decodeText_append a la.flatten b lb.flatten hab ih

/-- The `Schedule.from_frames` loop on Text frames: each frame appends its
decoded text to the optional description, an absent description counting as
empty (`self.description += f.text` after `description = ""` start via the
`or`-initialisation in the code path). -/
theorem scheduleScan_texts {ds : List (List Nat)} {ts : List (List Char)}
    (h : List.Forall₂ (fun d t => decodeText d = .ok t) ds ts) :
    ∀ (color : Option Colors) (date : Option PyDate) (st et at_ : Option PyTime)
      (il : Option Nat) (desc : Option PyStr),
      scheduleScan (ds.map textFrameOfData) color date st et at_ il desc
        = .ok (color, date, st, et, at_, il,
            ts.foldl (fun a t => some (a.getD [] ++ t)) desc) := by
  induction h with
  | nil => intro color date st et at_ il desc; simp [scheduleScan]
  | @cons a b la lb hab htail ih =>
      intro color date st et at_ il desc
      simp only [List.map_cons, scheduleScan, textFrameOfData]
      rw [if_pos trivial]
      show (decodeText a >>= fun t => scheduleScan (la.map textFrameOfData)
          color date st et at_ il (some ((desc.getD []) ++ t))) = _
      rw [hab, bind_ok_eq, ih color date st et at_ il (some (desc.getD [] ++ b)),
        List.foldl_cons]

/-- Folding the Schedule description updater from a present description
appends the concatenation of all the texts. -/
theorem scheduleDesc_foldl_some (ts : List (List Char)) :
    ∀ x, ts.foldl (fun a t => some (a.getD [] ++ t)) (some x) = some (x ++ ts.flatten) := by
  induction ts with
  | nil => intro x; simp
  | cons t0 ts2 ih =>
      intro x
      rw [List.foldl_cons]
      show ts2.foldl (fun a t => some (a.getD [] ++ t)) (some (x ++ t0))
          = some (x ++ (t0 :: ts2).flatten)
      rw [ih (x ++ t0)]
      simp [List.append_assoc]

/-- A concrete Date frame (2020-11-01) for the Schedule conjuncts of C7. -/
def c7DateFrame : Frame := Date.from_values .date (some 2020) (some 11) (some 1)

/-- A second, different concrete Date frame (2021-12-02). -/
def c7DateFrame2 : Frame := Date.from_values .date (some 2021) (some 12) (some 2)

/-- C7 (amended): in `from_frames`, a second frame of the same non-Text kind
replaces the previously populated slot — shown for a second Color frame in
the shared Telephone/BusinessCard/Memo/Expense loop, a second Date frame in
the Schedule loop and a second Priority frame in the ToDo loop — and
successive Text frames are accumulated by concatenating their decoded texts
in order in Telephone, BusinessCard, Memo and Expense (whose shared loop
appends each decoded text, so their `from_frames` agrees with a single
concatenated Text frame) and in Schedule (whose loop appends to the
optional description).  Calendar accepts no Text frame at all, and for
Reminder and ToDo each Text frame REPLACES the description, which therefore
equals the last Text frame's decoded text, not the concatenation. -/
theorem text_accumulation_amended :
    (∀ (ds : List (List Nat)) (ts : List (List Char)),
        List.Forall₂ (fun d t => decodeText d = .ok t) ds ts →
        ∀ (text : PyStr) (color : Option Colors),
          scanTextColor (ds.map textFrameOfData) text color
            = .ok (text ++ ts.flatten, color))
    ∧ (∀ (ds : List (List Nat)) (ts : List (List Char)),
        List.Forall₂ (fun d t => decodeText d = .ok t) ds ts →
        Telephone.from_frames (ds.map textFrameOfData)
          = Telephone.from_frames [textFrameOfData ds.flatten])
    ∧ (∀ (ds : List (List Nat)) (ts : List (List Char)),
        List.Forall₂ (fun d t => decodeText d = .ok t) ds ts →
        BusinessCard.from_frames (ds.map textFrameOfData)
          = BusinessCard.from_frames [textFrameOfData ds.flatten])
    ∧ (∀ (ds : List (List Nat)) (ts : List (List Char)),
        List.Forall₂ (fun d t => decodeText d = .ok t) ds ts →
        Memo.from_frames (ds.map textFrameOfData) = .ok ⟨ts.flatten, none⟩)
    ∧ (∀ (ds : List (List Nat)) (ts : List (List Char)),
        List.Forall₂ (fun d t => decodeText d = .ok t) ds ts →
        Expense.from_frames (ds.map textFrameOfData)
          = Expense.from_frames [textFrameOfData ds.flatten])
    ∧ (∀ (ds : List (List Nat)) (ts : List (List Char)),
        List.Forall₂ (fun d t => decodeText d = .ok t) ds ts →
        ∀ (color : Option Colors) (date : Option PyDate) (st et at_ : Option PyTime)
          (il : Option Nat) (desc : Option PyStr),
          scheduleScan (ds.map textFrameOfData) color date st et at_ il desc
            = .ok (color, date, st, et, at_, il,
                ts.foldl (fun a t => some (a.getD [] ++ t)) desc))
    ∧ (∀ (ds : List (List Nat)) (ts : List (List Char)),
        List.Forall₂ (fun d t => decodeText d = .ok t) ds ts →
        ts ≠ [] →
        Schedule.from_frames (c7DateFrame :: ds.map textFrameOfData)
          = .ok ⟨⟨2020, 11, 1⟩, none, none, none, none, some ts.flatten, none⟩)
    ∧ Calendar.from_frames [textFrameOfData [97]] = .error "Unknown frame type"
    ∧ (∀ (ds : List (List Nat)) (ts : List (List Char)),
        List.Forall₂ (fun d t => decodeText d = .ok t) ds ts →
        ts.getLastD [] ≠ [] →
        Reminder.from_frames (ds.map textFrameOfData)
          = .ok ⟨none, none, none, ts.getLastD [], none⟩)
    ∧ (∀ (ds : List (List Nat)) (ts : List (List Char)),
        List.Forall₂ (fun d t => decodeText d = .ok t) ds ts →
        ts.getLastD [] ≠ [] →
        ToDo.from_frames (ds.map textFrameOfData)
          = .ok ⟨none, none, none, none, none, ts.getLastD [], none⟩)
    ∧ (∀ (c1 c2 : Colors) (fs : List Frame) (t : PyStr) (c0 : Option Colors),
        scanTextColor (Color.from_color c1 :: Color.from_color c2 :: fs) t c0
          = scanTextColor fs t (some c2))
    ∧ (∀ (fs : List Frame) (color : Option Colors) (d : Option PyDate)
        (st et at_ : Option PyTime) (il : Option Nat) (desc : Option PyStr),
        scheduleScan (c7DateFrame :: c7DateFrame2 :: fs) color d st et at_ il desc
          = scheduleScan fs color (some ⟨2021, 12, 2⟩) st et at_ il desc)
    ∧ (∀ (fs : List Frame) (dd : Option PyDate) (dt al : Option PyTime)
        (cd : Option PyDate) (ct : Option PyTime) (desc : PyStr) (pr : Option Priorities),
        toDoScan (Priority.from_priority .A :: Priority.from_priority .B :: fs)
            dd dt al cd ct desc pr
          = toDoScan fs dd dt al cd ct desc (some .B)) := by
  refine ⟨?_, ?_, ?_, ?_, ?_, ?_, ?_, ?_, ?_, ?_, ?_, ?_, ?_⟩
  · intro ds ts h text color
    exact scanTextColor_texts h text color
  · intro ds ts h
    have h1 : scanTextColor (ds.map textFrameOfData) [] none = .ok (ts.flatten, none) := by
      simpa using scanTextColor_texts h [] none
    have h2 : scanTextColor [textFrameOfData ds.flatten] [] none
        = .ok (ts.flatten, none) := by
      simpa using scanTextColor_texts
        (List.Forall₂.cons (decodeText_flatten h) List.Forall₂.nil) [] none
    unfold Telephone.from_frames
    rw [h1, h2]
  · intro ds ts h
    have h1 : scanTextColor (ds.map textFrameOfData) [] none = .ok (ts.flatten, none) := by
      simpa using scanTextColor_texts h [] none
    have h2 : scanTextColor [textFrameOfData ds.flatten] [] none
        = .ok (ts.flatten, none) := by
      simpa using scanTextColor_texts
        (List.Forall₂.cons (decodeText_flatten h) List.Forall₂.nil) [] none
    unfold BusinessCard.from_frames
    rw [h1, h2]
  · intro ds ts h
    unfold Memo.from_frames
    rw [scanTextColor_texts h [] none, bind_ok_eq]
    rfl
  · intro ds ts h
    have h1 : scanTextColor (ds.map textFrameOfData) [] none = .ok (ts.flatten, none) := by
      simpa using scanTextColor_texts h [] none
    have h2 : scanTextColor [textFrameOfData ds.flatten] [] none
        = .ok (ts.flatten, none) := by
      simpa using scanTextColor_texts
        (List.Forall₂.cons (decodeText_flatten h) List.Forall₂.nil) [] none
    unfold Expense.from_frames
    rw [h1, h2]
  · intro ds ts h color date st et at_ il desc
    exact scheduleScan_texts h color date st et at_ il desc
  · intro ds ts h hne
    cases ts with
    | nil => exact absurd rfl hne
    | cons t0 ts2 =>
        have h1 : scheduleScan (c7DateFrame :: ds.map textFrameOfData)
              none none none none none none none
            = scheduleScan (ds.map textFrameOfData)
              none (some ⟨2020, 11, 1⟩) none none none none none := rfl
        have h2 := scheduleScan_texts h none (some ⟨2020, 11, 1⟩) none none none none none
        have h3 : (t0 :: ts2).foldl (fun a t => some (a.getD [] ++ t)) (none : Option PyStr)
            = some ((t0 :: ts2).flatten) := by
          show ts2.foldl (fun a t => some (a.getD [] ++ t)) (some t0)
              = some (t0 ++ ts2.flatten)
          exact scheduleDesc_foldl_some ts2 t0
        rw [h3] at h2
        unfold Schedule.from_frames
        rw [h1, h2, bind_ok_eq]
        dsimp only
        show (if (⟨⟨2020, 11, 1⟩, none, none, none, none, some ((t0 :: ts2).flatten),
              none⟩ : Schedule).post_init_ok
            then Except.ok (⟨⟨2020, 11, 1⟩, none, none, none, none,
              some ((t0 :: ts2).flatten), none⟩ : Schedule)
            else Except.error "post_init") = _
        rw [if_pos ⟨fun hp => Option.noConfusion hp.2,
          fun hn => absurd rfl hn, fun hn => absurd rfl hn⟩]
  · rfl
  · intro ds ts h hne
    unfold Reminder.from_frames
    rw [reminderScan_texts h none none none none [], bind_ok_eq]
    dsimp only
    rw [if_neg hne]
    rw [if_pos (by intro hm; exact absurd rfl hm)]
  · intro ds ts h hne
    unfold ToDo.from_frames
    rw [toDoScan_texts h none none none none none [] none, bind_ok_eq]
    dsimp only
    rw [if_neg hne]
    rw [if_pos ⟨fun hm => absurd rfl hm, fun hm => absurd rfl hm,
      fun hm => absurd rfl hm⟩]
  · intro c1 c2 fs t c0
    rw [scanTextColor_color_cons, scanTextColor_color_cons]
  · intro fs color d st et at_ il desc
    rfl
  · intro fs dd dt al cd ct desc pr
    rfl

/-- Witness for C7 (amended): the Memo accumulation and the Reminder
replacement applied to frames decoding to "ab" and "cd". -/
theorem text_accumulation_amended_witness :
    Memo.from_frames ([[97, 98], [99, 100]].map textFrameOfData)
        = .ok ⟨[['a', 'b'], ['c', 'd']].flatten, none⟩
      ∧ Reminder.from_frames ([[97, 98], [99, 100]].map textFrameOfData)
          = .ok ⟨none, none, none, [['a', 'b'], ['c', 'd']].getLastD [], none⟩ :=
  ⟨text_accumulation_amended.2.2.2.1 [[97, 98], [99, 100]] [['a', 'b'], ['c', 'd']]
      (by refine List.Forall₂.cons rfl (List.Forall₂.cons rfl List.Forall₂.nil)),
    text_accumulation_amended.2.2.2.2.2.2.2.2.1 [[97, 98], [99, 100]]
      [['a', 'b'], ['c', 'd']]
      (by refine List.Forall₂.cons rfl (List.Forall₂.cons rfl List.Forall₂.nil))
      (by decide)⟩

/-- Modelled from the spec: the `negate8` recipe of §3,
`negate8(x) = ((0xFF − (x & 0xFF)) + 1) & 0xFF`. -/
def negate8 (x : Nat) : Nat := ((0xFF - (x % 256)) + 1) % 256

/-- C3: for every (length, type, address, data) with the address in 16-bit
range, `calculate_checksum` returns
`negate8(length + type + addr_hi + addr_lo + Σ data)`; in particular the
frame (length=3, type=0xF4, address=0x86, data=[0,1,2]) has checksum 0x80 and
serializes to the ASCII string ":03F4860000010280" (address low byte first). -/
theorem checksum_negate8_and_s1_serialization :
    (∀ (length frame_type address : Nat) (data : List Nat),
        address < 65536 →
          calculate_checksum length frame_type address data
            = negate8 (length + frame_type + address / 256 + address % 256 + data.sum))
    ∧ calculate_checksum 3 0xF4 0x86 [0, 1, 2] = 0x80
    ∧ (from_data 3 0xF4 0x86 [0, 1, 2] 0x80).bytes
        = ((":03F4860000010280".data).map Char.toNat) := by
  refine ⟨?_, by decide, by decide⟩
  intro l t a d ha
  have h : (a / 256) % 256 = a / 256 := by
    apply Nat.mod_eq_of_lt
    omega
  simp only [calculate_checksum, negate8, h]

/-- Witness for C3: the general formula applied at the S1 frame. -/
theorem checksum_negate8_witness :
    calculate_checksum 3 0xF4 0x86 [0, 1, 2]
      = negate8 (3 + 0xF4 + 0x86 / 256 + 0x86 % 256 + ([0, 1, 2] : List Nat).sum) :=
  checksum_negate8_and_s1_serialization.1 3 0xF4 0x86 [0, 1, 2] (by decide)

/-- C10: frame equality is variant-sensitive: `__eq__` is true exactly when
the runtime classes coincide and the five fields agree; in particular a
generic `Frame` built directly from the Directory tuple is not equal to the
`Directory` frame that recognition returns for the same tuple, although all
five fields agree. -/
theorem frame_eq_variant_sensitive :
    (∀ f g : Frame, f.pyEq g = true ↔
        (f.kind = g.kind ∧ f.length = g.length ∧ f.frame_type = g.frame_type
          ∧ f.address = g.address ∧ f.data = g.data ∧ f.checksum = g.checksum))
    ∧ (from_data 2 0 0x200 [0, 0] 0x7C).kind = .directory
    ∧ (Frame.mk .generic 2 0 0x200 [0, 0] 0x7C).pyEq (from_data 2 0 0x200 [0, 0] 0x7C)
        = false := by
  refine ⟨?_, by decide, by decide⟩
  intro f g
  unfold Frame.pyEq
  by_cases h : f.kind = g.kind
  · simp [h, and_assoc]
  · simp [h]

/-- C4: frame recognition scans most specific first: every tuple accepted by
a specialized Directory predicate is recognized as that specialized variant
(never as the generic Directory); and outside the Directory family no two
distinct variants' predicates accept the same tuple. -/
theorem recognition_specific_first_and_disjoint :
    (∀ k ∈ specializedDirectories,
      ∀ (length frame_type address : Nat) (data : List Nat) (checksum : Nat),
        matchKind k length frame_type address data = true →
          (from_data length frame_type address data checksum).kind = k)
    ∧ (∀ (k1 k2 : FrameKind) (length frame_type address : Nat) (data : List Nat),
        data.length = length →
        k1.isDirectoryFamily = false → k2.isDirectoryFamily = false →
        matchKind k1 length frame_type address data = true →
        matchKind k2 length frame_type address data = true → k1 = k2) := by
  constructor
  · intro k hk l t a d c hm
    simp only [specializedDirectories, List.mem_cons, List.not_mem_nil, or_false] at hk
    rcases hk with rfl | rfl | rfl | rfl | rfl | rfl | rfl | rfl <;>
      · simp only [matchKind, Bool.and_eq_true, beq_iff_eq] at hm
        obtain ⟨⟨⟨rfl, rfl⟩, rfl⟩, rfl⟩ := hm
        rfl
  · intro k1 k2 l t a d _ h1 h2 m1 m2
    cases k1 <;> cases k2 <;> simp_all [matchKind, FrameKind.isDirectoryFamily]

/-- Witness for C4: the specialized-first part applied to the Telephone
Directory tuple and the disjointness part applied to the Color tuple. -/
theorem recognition_witness :
    (from_data 2 0 0x200 [0x90, 0] 0x6C).kind = .telephoneDirectory
      ∧ FrameKind.color = FrameKind.color :=
  ⟨recognition_specific_first_and_disjoint.1 .telephoneDirectory (by decide)
      2 0 0x200 [0x90, 0] 0x6C (by decide),
    recognition_specific_first_and_disjoint.2 .color .color 1 0x71 0 [1]
      (by decide) (by decide) (by decide) (by decide) (by decide)⟩

end CDD
